import Mathlib

/-!
Verification of the surgical document patcher of `shipDataEditor.py`
(Cosmos-ShipDataEditor).  The Python source operates on raw text with
index arithmetic; we embed a document as a `List Char` and positions as
`Nat` (using `Int` where the Python code can produce negative indices).
Loops become fuel-based recursions; every top-level call passes enough
fuel for the loop to run to its natural exit, and the fuel-exhausted
branch coincides with the loop's natural exit value, so the embedding
computes the same result as the Python loops.

Python regular expressions (`re`) are embedded by a small backtracking
enumerator: a pattern piece is a function from a suffix to the list of
possible consumed lengths, in exactly the engine's backtracking
preference order (greedy pieces longest first, ordered alternation,
depth-first sequencing).  The first element of the enumeration for the
full pattern is the match Python's engine reports.
-/

namespace ShipData

/-- Convert a string literal to the character-list document representation. -/
def cl (s : String) : List Char := s.data

/-- The double-quote character. -/
def dqc : Char := Char.ofNat 34

/-- The single-quote character. -/
def sqc : Char := Char.ofNat 39

/-- The backslash character. -/
def bsl : Char := Char.ofNat 92

/-- Whitespace characters: the ASCII set matched by Python `str.isspace`
and by the regex class backslash-s (all documents considered are ASCII). -/
def isPySpace (c : Char) : Bool :=
  c == ' ' || c == '\t' || c == '\n' || c == '\x0d' || c == '\x0b' || c == '\x0c'

/-- Auxiliary scan for `pyFindSub`: first position at or after `i` where
`pat` is a prefix of the remaining text. -/
def pyFindSubAux (t pat : List Char) : Nat → Nat → Option Nat
  | 0, _ => none
  | fuel + 1, i =>
    if pat.isPrefixOf (t.drop i) then some i
    else if i < t.length then pyFindSubAux t pat fuel (i + 1)
    else none

/-- Python `text.find(pat, start)`, with `none` for the `-1` result. -/
def pyFindSub (t pat : List Char) (start : Nat) : Option Nat :=
  pyFindSubAux t pat (t.length + 1 - start) start

/-- Python `text.find(ch, start)` for a single character. -/
def pyFindChar (t : List Char) (c : Char) (start : Nat) : Option Nat :=
  pyFindSub t [c] start

/-- Auxiliary scan for `pyRfindChar`, walking candidate positions downward. -/
def pyRfindCharAux (t : List Char) (c : Char) : Nat → Option Nat
  | 0 => none
  | i + 1 => if t.get? i = some c then some i else pyRfindCharAux t c i

/-- Python `text.rfind(ch, 0, stop)`: last index below `stop` holding `c`,
with `none` for the `-1` result. -/
def pyRfindChar (t : List Char) (c : Char) (stop : Nat) : Option Nat :=
  pyRfindCharAux t c (min stop t.length)

/-- Does the two-character string `ab` occur at offset `i` (Python
`text.startswith(ab, i)` / `text[i:i+2] == ab`)? -/
def two (t : List Char) (i : Nat) (a b : Char) : Bool :=
  t.get? i == some a && t.get? (i + 1) == some b

/-- Python helper `skip_line_comment` of `_extract_ship_list_region`:
skip to just past the next newline, or to the end of the text. -/
def skipLineComment (t : List Char) (j : Nat) : Nat :=
  match pyFindChar t '\n' j with
  | none => t.length
  | some nl => nl + 1

/-- Python helper `skip_block_comment` of `_extract_ship_list_region`:
skip to just past the next `*/`, or to the end of the text. -/
def skipBlockComment (t : List Char) (j : Nat) : Nat :=
  match pyFindSub t (cl ("*/")) (j + 2) with
  | none => t.length
  | some e => e + 2

/-- The key spellings tried by `_extract_ship_list_region`, in order. -/
def shipListKeys : List (List Char) :=
  [dqc :: cl ("#ship-list") ++ [dqc],
   sqc :: cl ("#ship-list") ++ [sqc],
   cl ("#ship-list"),
   dqc :: cl ("ship-list") ++ [dqc],
   sqc :: cl ("ship-list") ++ [sqc],
   cl ("ship-list")]

/-- The whitespace/comment skip of `_extract_ship_list_region` that walks
from just after the colon to the first significant character, succeeding
only if that character is an opening bracket. -/
def scanToBracketAux (t : List Char) : Nat → Nat → Option Nat
  | 0, _ => none
  | fuel + 1, i =>
    match t.get? i with
    | none => none
    | some ch =>
      if isPySpace ch then scanToBracketAux t fuel (i + 1)
      else if two t i '/' '/' || ch == '#' then scanToBracketAux t fuel (skipLineComment t i)
      else if two t i '/' '*' then scanToBracketAux t fuel (skipBlockComment t i)
      else if ch == '[' then some i
      else none

/-- The bracket-balance loop of `_extract_ship_list_region` (source lines
884-919), transcribed verbatim.  The escape test in the Python source is
`ch == '\x5c\x5c'`: that literal denotes the TWO-character string of two
backslashes, and `ch` is a single character, so the comparison is between
a one-character and a two-character string; we transcribe it as the list
comparison `[ch] == [bsl, bsl]`, which is never true. -/
def extractBalanceAux (t : List Char) :
    Nat → Nat → Int → Bool → Bool → Bool → Option Nat
  | 0, _, _, _, _, _ => none
  | fuel + 1, k, depth, inDq, inSq, esc =>
    match t.get? k with
    | none => none
    | some ch =>
      if !(inDq || inSq) && (two t k '/' '/' || ch == '#') then
        extractBalanceAux t fuel (skipLineComment t k) depth inDq inSq esc
      else if !(inDq || inSq) && two t k '/' '*' then
        extractBalanceAux t fuel (skipBlockComment t k) depth inDq inSq esc
      else if inDq || inSq then
        if esc then extractBalanceAux t fuel (k + 1) depth inDq inSq false
        else if [ch] == [bsl, bsl] then extractBalanceAux t fuel (k + 1) depth inDq inSq true
        else if inDq && ch == dqc then extractBalanceAux t fuel (k + 1) depth false inSq esc
        else if inSq && ch == sqc then extractBalanceAux t fuel (k + 1) depth inDq false esc
        else extractBalanceAux t fuel (k + 1) depth inDq inSq esc
      else
        if ch == dqc then extractBalanceAux t fuel (k + 1) depth true inSq esc
        else if ch == sqc then extractBalanceAux t fuel (k + 1) depth inDq true esc
        else if ch == '[' then extractBalanceAux t fuel (k + 1) (depth + 1) inDq inSq esc
        else if ch == ']' then
          if depth - 1 == 0 then some (k + 1)
          else extractBalanceAux t fuel (k + 1) (depth - 1) inDq inSq esc
        else extractBalanceAux t fuel (k + 1) depth inDq inSq esc

/-- `_extract_ship_list_region` (source lines 840-922): find the
ship-list key, the colon after it, the opening bracket after the colon,
and the offset pair of the bracketed array (end just past the closing
bracket), or `none` on any failure. -/
def extract_ship_list_region (t : List Char) : Option (Nat × Nat) :=
  match shipListKeys.findSome? (fun k => (pyFindSub t k 0).map (fun p => (p, k.length))) with
  | none => none
  | some (keyPos, keyLen) =>
    match pyFindChar t ':' (keyPos + keyLen) with
    | none => none
    | some colon =>
      match scanToBracketAux t (t.length + 1) (colon + 1) with
      | none => none
      | some i =>
        (extractBalanceAux t (t.length + 1) i 0 false false false).map (fun e => (i, e))

/-- Modelled from the spec: the same balance scan with the escape test
the spec describes (backslash-escape lookahead, so an escaped quote does
not terminate the string state).  This is `extractBalanceAux` with the
escape comparison performed on the single backslash character, which is
what the sibling scans of the same source file (`_patch_list_in_block`,
`find_object_bounds`) do. -/
def extractBalanceSpecAux (t : List Char) :
    Nat → Nat → Int → Bool → Bool → Bool → Option Nat
  | 0, _, _, _, _, _ => none
  | fuel + 1, k, depth, inDq, inSq, esc =>
    match t.get? k with
    | none => none
    | some ch =>
      if !(inDq || inSq) && (two t k '/' '/' || ch == '#') then
        extractBalanceSpecAux t fuel (skipLineComment t k) depth inDq inSq esc
      else if !(inDq || inSq) && two t k '/' '*' then
        extractBalanceSpecAux t fuel (skipBlockComment t k) depth inDq inSq esc
      else if inDq || inSq then
        if esc then extractBalanceSpecAux t fuel (k + 1) depth inDq inSq false
        else if ch == bsl then extractBalanceSpecAux t fuel (k + 1) depth inDq inSq true
        else if inDq && ch == dqc then extractBalanceSpecAux t fuel (k + 1) depth false inSq esc
        else if inSq && ch == sqc then extractBalanceSpecAux t fuel (k + 1) depth inDq false esc
        else extractBalanceSpecAux t fuel (k + 1) depth inDq inSq esc
      else
        if ch == dqc then extractBalanceSpecAux t fuel (k + 1) depth true inSq esc
        else if ch == sqc then extractBalanceSpecAux t fuel (k + 1) depth inDq true esc
        else if ch == '[' then extractBalanceSpecAux t fuel (k + 1) (depth + 1) inDq inSq esc
        else if ch == ']' then
          if depth - 1 == 0 then some (k + 1)
          else extractBalanceSpecAux t fuel (k + 1) (depth - 1) inDq inSq esc
        else extractBalanceSpecAux t fuel (k + 1) depth inDq inSq esc

/-- Modelled from the spec: `_extract_ship_list_region` with the
spec-described escape handling in its balance scan. -/
def extract_ship_list_region_spec (t : List Char) : Option (Nat × Nat) :=
  match shipListKeys.findSome? (fun k => (pyFindSub t k 0).map (fun p => (p, k.length))) with
  | none => none
  | some (keyPos, keyLen) =>
    match pyFindChar t ':' (keyPos + keyLen) with
    | none => none
    | some colon =>
      match scanToBracketAux t (t.length + 1) (colon + 1) with
      | none => none
      | some i =>
        (extractBalanceSpecAux t (t.length + 1) i 0 false false false).map (fun e => (i, e))

/-- The failing document for C1: a ship-list whose single array element
is the double-quoted string holding `a` followed by an escaped quote;
as characters, hash ship-list colon space bracket quote a backslash
quote quote cbracket. -/
def c1doc : List Char :=
  cl ("#ship-list: [") ++ [dqc, 'a', bsl, dqc, dqc, ']']

lemma pyFindSubAux_ge (t pat : List Char) :
    ∀ fuel i p, pyFindSubAux t pat fuel i = some p → i ≤ p := by
  intro fuel
  induction fuel with
  | zero => intro i p h; simp [pyFindSubAux] at h
  | succ n ih =>
    intro i p h
    simp only [pyFindSubAux] at h
    split at h
    · exact (Option.some_inj.mp h).le
    · split at h
      · exact Nat.le_of_succ_le (ih (i + 1) p h)
      · exact absurd h (by simp)

lemma pyFindSub_ge (t pat : List Char) (start p : Nat)
    (h : pyFindSub t pat start = some p) : start ≤ p :=
  pyFindSubAux_ge t pat _ start p h

lemma skipLineComment_ge (t : List Char) (k : Nat) (hk : k ≤ t.length) :
    k ≤ skipLineComment t k := by
  unfold skipLineComment
  cases hf : pyFindChar t '\n' k with
  | none => exact hk
  | some nl => exact Nat.le_succ_of_le (pyFindSub_ge t _ k nl hf)

lemma skipBlockComment_ge (t : List Char) (k : Nat) (hk : k ≤ t.length) :
    k ≤ skipBlockComment t k := by
  unfold skipBlockComment
  cases hf : pyFindSub t (cl ("*/")) (k + 2) with
  | none => exact hk
  | some e =>
    have he : k + 2 ≤ e := pyFindSub_ge t _ _ e hf
    show k ≤ e + 2
    omega

lemma lt_length_of_get? (t : List Char) (k : Nat) (c : Char)
    (h : t.get? k = some c) : k < t.length := by
  obtain ⟨h1, _⟩ := List.get?_eq_some.mp h
  exact h1

lemma mem_drop_of_get? (t : List Char) (i k : Nat) (c : Char)
    (hik : i ≤ k) (h : t.get? k = some c) : c ∈ t.drop i := by
  refine List.get?_mem (n := k - i) ?_
  rw [List.get?_drop]
  rwa [Nat.add_sub_cancel' hik]

/-- If no closing bracket occurs at or after position `i`, the balance
scan of `_extract_ship_list_region` runs off the end of the text and
reports failure. -/
lemma extractBalanceAux_no_close (t : List Char) (i : Nat)
    (hnb : ']' ∉ t.drop i) :
    ∀ fuel k d a b c, i ≤ k → extractBalanceAux t fuel k d a b c = none := by
  intro fuel
  induction fuel with
  | zero => intro k d a b c _; rfl
  | succ n ih =>
    intro k d a b c hik
    cases hget : t.get? k with
    | none => simp only [extractBalanceAux, hget]
    | some ch =>
      have hklen : k ≤ t.length := Nat.le_of_lt (lt_length_of_get? t k ch hget)
      have hline : i ≤ skipLineComment t k :=
        le_trans hik (skipLineComment_ge t k hklen)
      have hblock : i ≤ skipBlockComment t k :=
        le_trans hik (skipBlockComment_ge t k hklen)
      have hnext : i ≤ k + 1 := Nat.le_succ_of_le hik
      simp only [extractBalanceAux, hget]
      split_ifs with h1 h2 h3 h4 h5 h6 h7 h8 h9 h10 h11 h12
      · exact ih _ d a b c hline
      · exact ih _ d a b c hblock
      · exact ih _ d a b false hnext
      · exact ih _ d a b true hnext
      · exact ih _ d false b c hnext
      · exact ih _ d a false c hnext
      · exact ih _ d a b c hnext
      · exact ih _ d true b c hnext
      · exact ih _ d a true c hnext
      · exact ih _ (d + 1) a b c hnext
      · exact absurd (mem_drop_of_get? t i k ']' hik (by rwa [beq_iff_eq.mp h11] at hget)) hnb
      · exact absurd (mem_drop_of_get? t i k ']' hik (by rwa [beq_iff_eq.mp h11] at hget)) hnb
      · exact ih _ d a b c hnext

/-- C7: if the ship-list key, the colon, and the opening bracket are all
found, but no closing bracket character occurs anywhere at or after the
opening bracket, `_extract_ship_list_region` terminates and returns the
failure value `none` rather than a region. -/
theorem C7_unterminated_array_returns_none
    (t : List Char) (keyPos keyLen colon i : Nat)
    (hkey : shipListKeys.findSome?
      (fun k => (pyFindSub t k 0).map (fun p => (p, k.length))) = some (keyPos, keyLen))
    (hcolon : pyFindChar t ':' (keyPos + keyLen) = some colon)
    (hscan : scanToBracketAux t (t.length + 1) (colon + 1) = some i)
    (hnb : ']' ∉ t.drop i) :
    extract_ship_list_region t = none := by
  have hbal := extractBalanceAux_no_close t i hnb (t.length + 1) i 0 false false false (le_refl i)
  unfold extract_ship_list_region
  simp only [hkey, hcolon, hscan, hbal, Option.map_none']

/-- Witness for C7 at a concrete unterminated document. -/
theorem C7_witness :
    extract_ship_list_region (cl ("#ship-list: [ x")) = none :=
  C7_unterminated_array_returns_none (cl ("#ship-list: [ x")) 0 10 10 12
    (by decide) (by decide) (by decide) (by decide)

/-- C1 (code bug): for the document `c1doc`, whose array brackets are
balanced outside of strings and comments under escape-aware scanning,
`_extract_ship_list_region` as written returns `none` because its escape
flag can never be set (the scan compares the one-character `ch` against
a two-character literal); the spec-modelled scan with real escape
lookahead returns the offset pair `(12, 19)` of the bracketed array. -/
theorem C1_escaped_quote_breaks_region_scan :
    extract_ship_list_region c1doc = none ∧
    extract_ship_list_region_spec c1doc = some (12, 19) := by
  exact ⟨by decide, by decide⟩

/-- The scanning loop of `_iter_top_level_flow_maps` (source lines
924-950), transcribed verbatim: quote-aware brace counting over
`[i, end_)`, yielding a span whenever the depth returns to zero with a
recorded block start.  The Python loop reads `text[i]` directly; a read
past the end of the text (possible only when `end_` exceeds the text
length) is modelled by stopping the scan. -/
def iterFlowMapsAux (t : List Char) (end_ : Nat) :
    Nat → Nat → Option Char → Int → Option Nat → List (Nat × Nat)
  | 0, _, _, _, _ => []
  | fuel + 1, i, inq, depth, bstart =>
    if i < end_ then
      match t.get? i with
      | none => []
      | some ch =>
        match inq with
        | some q =>
          if ch == q && !(t.get? (i - 1) == some bsl) then
            iterFlowMapsAux t end_ fuel (i + 1) none depth bstart
          else
            iterFlowMapsAux t end_ fuel (i + 1) inq depth bstart
        | none =>
          if ch == dqc || ch == sqc then
            iterFlowMapsAux t end_ fuel (i + 1) (some ch) depth bstart
          else if ch == '{' then
            iterFlowMapsAux t end_ fuel (i + 1) none (depth + 1)
              (if depth == 0 then some i else bstart)
          else if ch == '}' then
            match bstart with
            | some s =>
              if depth - 1 == 0 then
                (s, i + 1) :: iterFlowMapsAux t end_ fuel (i + 1) none (depth - 1) none
              else iterFlowMapsAux t end_ fuel (i + 1) none (depth - 1) bstart
            | none => iterFlowMapsAux t end_ fuel (i + 1) none (depth - 1) none
          else iterFlowMapsAux t end_ fuel (i + 1) none depth bstart
    else []

/-- `_iter_top_level_flow_maps(text, start, end)`: the list of top-level
brace spans directly inside `[start, end_)`, in scan order. -/
def iter_top_level_flow_maps (t : List Char) (start end_ : Nat) : List (Nat × Nat) :=
  iterFlowMapsAux t end_ (end_ + 1) start none 0 none

lemma pairwise_step {R : Nat × Nat → Nat × Nat → Prop} (i : Nat)
    (bs bs' : Option Nat) {L : List (Nat × Nat)}
    (hIH : (∀ p ∈ L, (bs' = some p.1 ∨ i + 1 ≤ p.1) ∧ p.1 < p.2) ∧ List.Pairwise R L)
    (hmap : ∀ a : Nat, bs' = some a → bs = some a ∨ i ≤ a) :
    (∀ p ∈ L, (bs = some p.1 ∨ i ≤ p.1) ∧ p.1 < p.2) ∧ List.Pairwise R L := by
  refine ⟨fun p hp => ?_, hIH.2⟩
  obtain ⟨h1, h2⟩ := hIH.1 p hp
  refine ⟨?_, h2⟩
  rcases h1 with h | h
  · exact hmap p.1 h
  · exact Or.inr (Nat.le_of_succ_le h)

/-- Loop invariant of the flow-map scan: every yielded span starts at the
recorded block start or at or after the cursor, spans are non-degenerate,
and consecutive spans are ordered end-before-start. -/
lemma iterFlowMapsAux_inv (t : List Char) (end_ : Nat) :
    ∀ fuel i inq d bs, (∀ s, bs = some s → s ≤ i) →
      (∀ p ∈ iterFlowMapsAux t end_ fuel i inq d bs,
          (bs = some p.1 ∨ i ≤ p.1) ∧ p.1 < p.2) ∧
      List.Pairwise (fun p q : Nat × Nat => p.2 ≤ q.1)
        (iterFlowMapsAux t end_ fuel i inq d bs) := by
  intro fuel
  induction fuel with
  | zero =>
    intro i inq d bs _
    exact ⟨fun p hp => by simp [iterFlowMapsAux] at hp, by simp [iterFlowMapsAux]⟩
  | succ n ih =>
    intro i inq d bs hbs
    have hkeep : ∀ a : Nat, bs = some a → bs = some a ∨ i ≤ a := fun a h => Or.inl h
    have hnew : ∀ a : Nat, (some i : Option Nat) = some a → bs = some a ∨ i ≤ a := by
      intro a h; exact Or.inr (Option.some_inj.mp h).le
    have hnone : ∀ a : Nat, (none : Option Nat) = some a → bs = some a ∨ i ≤ a := by
      intro a h; simp at h
    have hbs1 : ∀ s, bs = some s → s ≤ i + 1 :=
      fun s h => Nat.le_succ_of_le (hbs s h)
    have hbsi : ∀ s : Nat, (some i : Option Nat) = some s → s ≤ i + 1 := by
      intro s h; exact Nat.le_succ_of_le (Option.some_inj.mp h).ge
    have hbsn : ∀ s : Nat, (none : Option Nat) = some s → s ≤ i + 1 := by
      intro s h; simp at h
    by_cases hie : i < end_
    case neg =>
      simp only [iterFlowMapsAux, if_neg hie]
      exact ⟨fun p hp => absurd hp (List.not_mem_nil p), List.Pairwise.nil⟩
    cases hget : t.get? i with
    | none =>
      simp only [iterFlowMapsAux, if_pos hie, hget]
      exact ⟨fun p hp => absurd hp (List.not_mem_nil p), List.Pairwise.nil⟩
    | some ch =>
      cases inq with
      | some q =>
        simp only [iterFlowMapsAux, if_pos hie, hget]
        split_ifs with h1
        · exact pairwise_step i bs bs (ih (i + 1) none d bs hbs1) hkeep
        · exact pairwise_step i bs bs (ih (i + 1) (some q) d bs hbs1) hkeep
      | none =>
        simp only [iterFlowMapsAux, if_pos hie, hget]
        split_ifs with h1 h2 h3 h4 h5
        · exact pairwise_step i bs bs (ih (i + 1) (some ch) d bs hbs1) hkeep
        · exact pairwise_step i bs (some i)
            (ih (i + 1) none (d + 1) (some i) hbsi) hnew
        · exact pairwise_step i bs bs (ih (i + 1) none (d + 1) bs hbs1) hkeep
        · cases bs with
          | some s =>
            obtain ⟨hIH1, hIH2⟩ := ih (i + 1) none (d - 1) none hbsn
            constructor
            · intro p hp
              rcases List.mem_cons.mp hp with hp | hp
              · subst hp
                exact ⟨Or.inl rfl, Nat.lt_succ_of_le (hbs s rfl)⟩
              · obtain ⟨hl, hr⟩ := hIH1 p hp
                refine ⟨Or.inr ?_, hr⟩
                rcases hl with hl | hl
                · exact absurd hl (by simp)
                · exact Nat.le_of_succ_le hl
            · refine List.pairwise_cons.mpr ⟨?_, hIH2⟩
              intro q hq
              obtain ⟨hl, _⟩ := hIH1 q hq
              rcases hl with hl | hl
              · exact absurd hl (by simp)
              · exact hl
          | none =>
            exact pairwise_step i none none (ih (i + 1) none (d - 1) none hbsn) hnone
        · cases bs with
          | some s =>
            exact pairwise_step i (some s) (some s)
              (ih (i + 1) none (d - 1) (some s) hbs1) hkeep
          | none =>
            exact pairwise_step i none none (ih (i + 1) none (d - 1) none hbsn) hnone
        · exact pairwise_step i bs bs (ih (i + 1) none d bs hbs1) hkeep

/-- C9: for every document text and every range, the spans yielded by
`_iter_top_level_flow_maps` are non-degenerate, pairwise non-overlapping
and strictly increasing in start offset (document order). -/
theorem C9_spans_disjoint_and_increasing (t : List Char) (start end_ : Nat) :
    (∀ p ∈ iter_top_level_flow_maps t start end_, p.1 < p.2) ∧
    List.Pairwise (fun p q : Nat × Nat => p.1 < q.1 ∧ p.2 ≤ q.1)
      (iter_top_level_flow_maps t start end_) := by
  have h := iterFlowMapsAux_inv t end_ (end_ + 1) start none 0 none (by simp)
  refine ⟨fun p hp => (h.1 p hp).2, ?_⟩
  refine List.Pairwise.imp_of_mem ?_ h.2
  intro p q hp hq hpq
  exact ⟨lt_of_lt_of_le (h.1 p hp).2 hpq, hpq⟩

/-! ### Embedding of the Python `re` patterns

A pattern piece is a function from a suffix of the text to the list of
lengths it can consume, ordered exactly as the backtracking engine
prefers them: greedy repetition longest-first, lazy repetition
shortest-first, alternation in written order, sequencing depth-first.
The head of the enumeration of a full pattern is the match that Python
reports; a later element is the match found after the continuation
rejects the earlier ones. -/

/-- A pattern piece: suffix to consumable lengths in preference order. -/
def EnumM : Type := List Char → List Nat

/-- The empty pattern. -/
def eEps : EnumM := fun _ => [0]

/-- A single-character class. -/
def eChar (p : Char → Bool) : EnumM := fun s =>
  match s with
  | [] => []
  | c :: _ => if p c then [1] else []

/-- A literal string. -/
def eLit (l : List Char) : EnumM := fun s => if l.isPrefixOf s then [l.length] else []

/-- Sequencing, depth-first. -/
def eSeq (a b : EnumM) : EnumM := fun s =>
  (a s).flatMap (fun n => (b (s.drop n)).map (fun m => n + m))

/-- Ordered alternation. -/
def eAlt (a b : EnumM) : EnumM := fun s => a s ++ b s

/-- Ordered alternation over a list of pieces. -/
def eAlts (es : List EnumM) : EnumM := fun s => es.flatMap (fun e => e s)

/-- Greedy option (`x?`). -/
def eOpt (a : EnumM) : EnumM := fun s => a s ++ [0]

/-- The multiline end-of-line anchor (dollar with `re.M`): end of text or
just before a newline. -/
def eEol : EnumM := fun s =>
  match s with
  | [] => [0]
  | c :: _ => if c == '\n' then [0] else []

/-- Greedy star: iterations maximal-first.  Every repetition body used in
this development consumes at least one character, so fuel equal to the
suffix length never cuts a legitimate iteration (the filter drops only
empty body matches, which Python's engine also refuses to repeat). -/
def eStarAux (a : EnumM) : Nat → List Char → List Nat
  | 0, _ => [0]
  | fuel + 1, s =>
    ((a s).filter (fun n => 0 < n)).flatMap
      (fun n => (eStarAux a fuel (s.drop n)).map (fun m => n + m)) ++ [0]

/-- Greedy star at full fuel. -/
def eStar (a : EnumM) : EnumM := fun s => eStarAux a s.length s

/-- Lazy star: iterations minimal-first (used for the block-comment body). -/
def eStarLazyAux (a : EnumM) : Nat → List Char → List Nat
  | 0, _ => [0]
  | fuel + 1, s =>
    0 :: ((a s).filter (fun n => 0 < n)).flatMap
      (fun n => (eStarLazyAux a fuel (s.drop n)).map (fun m => n + m))

/-- Lazy star at full fuel. -/
def eStarLazy (a : EnumM) : EnumM := fun s => eStarLazyAux a s.length s

/-- Greedy plus (`x+`). -/
def ePlus (a : EnumM) : EnumM := eSeq a (eStar a)

/-- Regex whitespace class (backslash-s). -/
def wsC : EnumM := eChar isPySpace

/-- Greedy whitespace run (backslash-s star). -/
def wsS : EnumM := eStar wsC

/-- The dot under `re.DOTALL`: any character. -/
def anyC : EnumM := eChar (fun _ => true)

/-- The class excluding newline (also the dot without `re.DOTALL`). -/
def noNl : EnumM := eChar (fun c => !(c == '\n'))

/-- A double quote. -/
def dquoteE : EnumM := eChar (fun c => c == dqc)

/-- A single quote. -/
def squoteE : EnumM := eChar (fun c => c == sqc)

/-- A backslash. -/
def bslE : EnumM := eChar (fun c => c == bsl)

/-- A colon. -/
def colonE : EnumM := eChar (fun c => c == ':')

/-- A comma. -/
def commaE : EnumM := eChar (fun c => c == ',')

/-- A slash-slash line comment: two slashes then anything up to a newline. -/
def lineSlashCmt : EnumM := eSeq (eLit (cl ("//"))) (eStar noNl)

/-- A hash line comment. -/
def lineHashCmt : EnumM := eSeq (eChar (fun c => c == '#')) (eStar noNl)

/-- A block comment with a lazy body (the `re` patterns compile it with
`re.DOTALL`, so the body dot matches newlines too). -/
def blockCmt : EnumM := eSeq (eLit (cl ("/*"))) (eSeq (eStarLazy anyC) (eLit (cl ("*/"))))

/-- The interstitial comment pattern shared by the patchers and the key
scan: star of (whitespace then one comment form). -/
def cmtS : EnumM := eStar (eSeq wsS (eAlts [lineSlashCmt, lineHashCmt, blockCmt]))

/-! ### The banner stamp `_upsert_editor_banner_simple` (source lines 798-816) -/

/-- Body item of the banner's double-quoted value: escaped character
(dot without `re.DOTALL`, so not a newline) or any character other than
quote and backslash. -/
def dqBodyItemM : EnumM :=
  eAlt (eSeq bslE noNl) (eChar (fun c => !(c == dqc) && !(c == bsl)))

/-- A complete double-quoted token for the banner pattern. -/
def dqTokM : EnumM := eSeq dquoteE (eSeq (eStar dqBodyItemM) dquoteE)

/-- A space-or-tab character (the banner pattern's indent class). -/
def tabSpace : EnumM := eChar (fun c => c == ' ' || c == '\t')

/-- The banner key literal. -/
def bannerKey : List Char := cl ("#OrionShipEditor")

/-- The banner pattern after the indent group: optional opening quote,
the key, a mandatory closing quote, colon, a double-quoted value,
optional comma, trailing whitespace and the multiline end anchor. -/
def bannerBody : EnumM :=
  eSeq (eOpt dquoteE)
    (eSeq (eLit bannerKey)
      (eSeq dquoteE
        (eSeq wsS
          (eSeq colonE
            (eSeq wsS
              (eSeq dqTokM
                (eSeq wsS
                  (eSeq (eOpt commaE) (eSeq wsS eEol)))))))))

/-- Attempt the banner pattern at position `p` (which the caller has
verified is a line start); returns the indent length and the total match
length of the first match in backtracking order. -/
def bannerMatchAt (t : List Char) (p : Nat) : Option (Nat × Nat) :=
  let s := t.drop p
  ((eStar tabSpace s).flatMap
    (fun ni => (bannerBody (s.drop ni)).map (fun nb => (ni, ni + nb)))).head?

/-- `re.search` of the banner pattern: scan candidate positions left to
right; the caret makes every non-line-start position fail immediately,
so only offset zero and positions just after a newline are attempted. -/
def bannerSearchAux (t : List Char) : Nat → Nat → Option (Nat × Nat × Nat)
  | 0, _ => none
  | fuel + 1, p =>
    if p ≤ t.length then
      if p == 0 || t.get? (p - 1) == some '\n' then
        match bannerMatchAt t p with
        | some (ni, len) => some (p, ni, p + len)
        | none => bannerSearchAux t fuel (p + 1)
      else bannerSearchAux t fuel (p + 1)
    else none

/-- Search the whole text for the banner pattern. -/
def bannerSearch (t : List Char) : Option (Nat × Nat × Nat) :=
  bannerSearchAux t (t.length + 2) 0

/-- The two sequential replaces applied to the banner value before
splicing: double every backslash, then escape every double quote. -/
def escapeBanner (b : List Char) : List Char :=
  (b.flatMap (fun c => if c == bsl then [bsl, bsl] else [c])).flatMap
    (fun c => if c == dqc then [bsl, dqc] else [c])

/-- The replacement text of the banner substitution: the captured indent,
the quoted key, the quoted escaped banner and a trailing comma. -/
def bannerLine (indent bannerEsc : List Char) : List Char :=
  indent ++ [dqc] ++ bannerKey ++ [dqc] ++ cl (": ") ++ [dqc] ++ bannerEsc ++ [dqc, ',']

/-- `_upsert_editor_banner_simple`, parameterised by the raw banner value
(the Python code computes it from the current time; all claims hold the
value fixed): replace the first matching banner line, else insert a new
line immediately after the first opening brace, else return the text
unchanged. -/
def upsert_editor_banner_simple (bannerRaw : List Char) (t : List Char) : List Char :=
  let lb : List Char := if (pyFindSub t (cl ("\x0d\n")) 0).isSome then cl ("\x0d\n") else cl ("\n")
  let banner := escapeBanner bannerRaw
  match bannerSearch t with
  | some (p, ni, e) => t.take p ++ bannerLine ((t.drop p).take ni) banner ++ t.drop e
  | none =>
    match pyFindChar t '{' 0 with
    | none => t
    | some brace =>
      t.take (brace + 1) ++ lb ++ bannerLine (cl ("  ")) banner ++ t.drop (brace + 1)

/-- C10: when no line of the document matches the banner pattern and the
document holds no opening brace at all, the banner stamp is the identity. -/
theorem C10_no_banner_no_brace_identity (b t : List Char)
    (hsearch : bannerSearch t = none) (hbrace : pyFindChar t '{' 0 = none) :
    upsert_editor_banner_simple b t = t := by
  unfold upsert_editor_banner_simple
  simp only [hsearch, hbrace]

/-- Witness for C10 on a braceless, bannerless document. -/
theorem C10_witness :
    upsert_editor_banner_simple (cl ("B")) (cl ("hello world")) = cl ("hello world") :=
  C10_no_banner_no_brace_identity (cl ("B")) (cl ("hello world")) (by decide) (by decide)

/-- The C8 counterexample document: an opening brace immediately followed
by content on the same line. -/
def c8doc : List Char := ['{', 'x', '}']

/-- C8 (counterexample): with the banner value held fixed, stamping twice
is not the same as stamping once.  On `c8doc` the first call inserts the
banner line after the brace, but the spliced suffix `x` continues that
line, so the line no longer matches the banner pattern (whose anchor
requires end-of-line after the optional comma); the second call therefore
takes the insert path again and produces a duplicate banner line. -/
theorem C8_stamp_not_idempotent :
    upsert_editor_banner_simple (cl ("B")) (upsert_editor_banner_simple (cl ("B")) c8doc) ≠
      upsert_editor_banner_simple (cl ("B")) c8doc ∧
    upsert_editor_banner_simple (cl ("B")) c8doc =
      ['{'] ++ cl ("\n") ++ bannerLine (cl ("  ")) (cl ("B")) ++ cl ("x") ++ ['}'] ∧
    upsert_editor_banner_simple (cl ("B")) (upsert_editor_banner_simple (cl ("B")) c8doc) =
      ['{'] ++ cl ("\n") ++ bannerLine (cl ("  ")) (cl ("B")) ++ cl ("\n") ++
        bannerLine (cl ("  ")) (cl ("B")) ++ cl ("x") ++ ['}'] := by
  refine ⟨by decide, by decide, by decide⟩

/-- C8 (amended): a second stamp call is byte-identical exactly on the
replace path with an exact span: if the banner search succeeds and the
matched span is precisely the canonical banner line the substitution
emits, the stamp returns its input unchanged. -/
theorem C8_amended_exact_replace_is_identity (b t : List Char) (p ni e : Nat)
    (h1 : bannerSearch t = some (p, ni, e))
    (hpe : p ≤ e)
    (h2 : (t.drop p).take (e - p) = bannerLine ((t.drop p).take ni) (escapeBanner b)) :
    upsert_editor_banner_simple b t = t := by
  unfold upsert_editor_banner_simple
  simp only [h1]
  rw [← h2]
  have h3 : (t.drop p).drop (e - p) = t.drop e := by
    rw [List.drop_drop]
    congr 1
    omega
  rw [← h3, List.append_assoc, List.take_append_drop (e - p) (t.drop p),
    List.take_append_drop p t]

/-- Witness for the amended C8 on a document already carrying the
canonical banner line. -/
theorem C8_amended_witness :
    upsert_editor_banner_simple (cl ("B"))
      (['{'] ++ cl ("\n") ++ bannerLine (cl ("  ")) (cl ("B")) ++ cl ("\nfoo")) =
      ['{'] ++ cl ("\n") ++ bannerLine (cl ("  ")) (cl ("B")) ++ cl ("\nfoo") :=
  C8_amended_exact_replace_is_identity (cl ("B")) _ 2 2 28
    (by decide) (by decide) (by decide)

/-! ### The scalar patcher `_patch_scalar_in_block` (source lines 1103-1127) -/

/-- Body item of the patcher's double-quoted value token: the pattern is
compiled with `re.S`, so the escaped character may be any character. -/
def dqBodyItemS : EnumM :=
  eAlt (eSeq bslE anyC) (eChar (fun c => !(c == dqc) && !(c == bsl)))

/-- The patcher's double-quoted value token. -/
def dqTokS : EnumM := eSeq dquoteE (eSeq (eStar dqBodyItemS) dquoteE)

/-- Body item of the patcher's single-quoted value token. -/
def sqBodyItemS : EnumM :=
  eAlt (eSeq bslE anyC) (eChar (fun c => !(c == sqc) && !(c == bsl)))

/-- The patcher's single-quoted value token; the source pattern puts a
plus on the closing quote, so one or more closing quotes are consumed. -/
def sqTokS : EnumM := eSeq squoteE (eSeq (eStar sqBodyItemS) (ePlus squoteE))

/-- The patcher's bare value token: one or more characters other than
comma, carriage return, newline, closing brace and closing bracket. -/
def bareTokS : EnumM :=
  ePlus (eChar (fun c =>
    !(c == ',') && !(c == '\x0d') && !(c == '\n') && !(c == '}') && !(c == ']')))

/-- The patcher's complete value-token alternation, in written order. -/
def valueTokS : EnumM := eAlts [dqTokS, sqTokS, bareTokS]

/-- The patcher's key alternation: a quoted alias or a bare alias, each
tried in the order the aliases are given. -/
def keyAltS (keys : List (List Char)) : EnumM :=
  eAlt (eSeq dquoteE (eSeq (eAlts (keys.map eLit)) dquoteE)) (eAlts (keys.map eLit))

/-- Group one of the patcher's pattern: key alias, whitespace, colon,
whitespace, interstitial comments. -/
def patchPart1 (keys : List (List Char)) : EnumM :=
  eSeq (keyAltS keys) (eSeq wsS (eSeq colonE (eSeq wsS cmtS)))

/-- The leftmost match of the patcher's pattern: scan start offsets left
to right and report the first position where the backtracking engine
finds group one followed by a value token, as the offset together with
the two group lengths. -/
def patchFindAux (block : List Char) (keys : List (List Char)) :
    Nat → Nat → Option (Nat × Nat × Nat)
  | 0, _ => none
  | fuel + 1, i =>
    match ((patchPart1 keys (block.drop i)).flatMap
        (fun n1 => (valueTokS ((block.drop i).drop n1)).map (fun n2 => (n1, n2)))).head? with
    | some (n1, n2) => some (i, n1, n2)
    | none => if i < block.length then patchFindAux block keys fuel (i + 1) else none

/-- The leftmost match of the patcher's pattern over the whole block. -/
def patchFind (block : List Char) (keys : List (List Char)) : Option (Nat × Nat × Nat) :=
  patchFindAux block keys (block.length + 1) 0

/-- `_patch_scalar_in_block`: replace the value token of the first match
with the rendered value, leaving group one (key, colon, comments) in
place; report the replacement count (`re.subn` with count one). -/
def patch_scalar_in_block (block : List Char) (keys : List (List Char))
    (value_str : List Char) : List Char × Nat :=
  match patchFind block keys with
  | none => (block, 0)
  | some (i, n1, n2) =>
    (block.take (i + n1) ++ value_str ++ block.drop (i + n1 + n2), 1)

/-! ### In-memory values and `_repr_hjson_scalar` (source lines 712-724) -/

/-- An in-memory Python value handed to the patcher by the GUI collaborator. -/
inductive PyVal where
  | pstr : String → PyVal
  | pint : Int → PyVal
  | pbool : Bool → PyVal
  | plist : List PyVal → PyVal
  | pdict : List (String × PyVal) → PyVal

/-- `_repr_hjson_scalar`: booleans to bare `true`/`false`, integers to
their decimal form, strings JSON-quoted with backslash and quote escaped
(the same two sequential replaces as the banner escape); a dict or list
argument raises, modelled as `none`.  The float case of the source
(`str(v)` on a float) is outside the value universe considered here. -/
def repr_hjson_scalar : PyVal → Option (List Char)
  | PyVal.pdict _ => none
  | PyVal.plist _ => none
  | PyVal.pbool b => some (if b then cl ("true") else cl ("false"))
  | PyVal.pint n => some (cl (toString n))
  | PyVal.pstr s => some ([dqc] ++ escapeBanner s.data ++ [dqc])

/-- C2 (amended): patching a scalar field with a value string identical
to its current value token (group two of the match) is the identity on
the block and reports one replacement. -/
theorem C2_amended_patch_current_token_identity
    (block : List Char) (keys : List (List Char)) (i n1 n2 : Nat)
    (h : patchFind block keys = some (i, n1, n2)) :
    patch_scalar_in_block block keys ((block.drop (i + n1)).take n2) = (block, 1) := by
  have h3 : (block.drop (i + n1)).drop n2 = block.drop (i + n1 + n2) := by
    rw [List.drop_drop]
  unfold patch_scalar_in_block
  simp only [h]
  rw [← h3, List.append_assoc, List.take_append_drop n2 (block.drop (i + n1)),
    List.take_append_drop (i + n1) block]

/-- The block used by the C2 witness: obrace quote n quote colon space 1 cbrace. -/
def c2block : List Char := cl ("\x7b\"n\": 1\x7d")

/-- Witness for the amended C2: in `c2block` the pattern for key `n`
matches at offset one with group one of length five and value token `1`;
patching with that token returns the block unchanged with count one. -/
theorem C2_amended_witness :
    patch_scalar_in_block c2block [cl ("n")] ((c2block.drop (1 + 5)).take 1) = (c2block, 1) :=
  C2_amended_patch_current_token_identity c2block [cl ("n")] 1 5 1 (by decide)

/-- The C2 counterexample block: obrace space side colon space
single-quoted x space cbrace. -/
def c2sqblock : List Char := cl ("\x7b side: ") ++ [sqc, 'x', sqc] ++ cl (" \x7d")

/-- C2 (counterexample): the current value of key `side` in `c2sqblock`
is the string `x` (its token is the single-quoted literal); rendering it
with `_repr_hjson_scalar` gives the double-quoted token, and patching the
field with that rendered current value changes the text — the round trip
is not byte-identical. -/
theorem C2_roundtrip_fails_on_single_quoted_token :
    repr_hjson_scalar (PyVal.pstr ("x")) = some (cl ("\"x\"")) ∧
    patch_scalar_in_block c2sqblock [cl ("side")] (cl ("\"x\"")) =
      (cl ("\x7b side: \"x\" \x7d"), 1) ∧
    cl ("\x7b side: \"x\" \x7d") ≠ c2sqblock := by
  refine ⟨by decide, by decide, by decide⟩

/-! ### Absent keys: the patchers match only where an alias occurs -/

lemma eChar_mem {p : Char → Bool} {s : List Char} {n : Nat} (h : n ∈ eChar p s) : n = 1 := by
  cases s with
  | nil => simp [eChar] at h
  | cons c cs =>
    by_cases hp : p c
    · simp [eChar, hp] at h
      exact h
    · simp [eChar, hp] at h

lemma eLit_mem {l s : List Char} {n : Nat} (h : n ∈ eLit l s) : l.isPrefixOf s = true := by
  unfold eLit at h
  split at h
  · assumption
  · simp at h

/-- If the key alternation can match at a suffix, some alias is a prefix
of that suffix (bare form) or of the suffix less its first character
(quoted form). -/
lemma keyAltS_key_occurs {keys : List (List Char)} {s : List Char}
    (h : keyAltS keys s ≠ []) :
    ∃ k ∈ keys, k.isPrefixOf s = true ∨ k.isPrefixOf (s.drop 1) = true := by
  obtain ⟨x, hx⟩ := List.exists_mem_of_ne_nil _ h
  unfold keyAltS eAlt at hx
  rcases List.mem_append.mp hx with hx | hx
  · unfold eSeq at hx
    obtain ⟨n, hn, hx2⟩ := List.mem_flatMap.mp hx
    have hn1 : n = 1 := eChar_mem (p := fun c => c == dqc) hn
    subst hn1
    obtain ⟨m, hm, _⟩ := List.mem_map.mp hx2
    obtain ⟨n2, hn2, _⟩ := List.mem_flatMap.mp hm
    unfold eAlts at hn2
    obtain ⟨e, he, hne⟩ := List.mem_flatMap.mp hn2
    obtain ⟨k, hk, hke⟩ := List.mem_map.mp he
    subst hke
    exact ⟨k, hk, Or.inr (eLit_mem hne)⟩
  · unfold eAlts at hx
    obtain ⟨e, he, hne⟩ := List.mem_flatMap.mp hx
    obtain ⟨k, hk, hke⟩ := List.mem_map.mp he
    subst hke
    exact ⟨k, hk, Or.inl (eLit_mem hne)⟩

lemma prefix_drop_isInfix (k t : List Char) (j : Nat)
    (h : k.isPrefixOf (t.drop j) = true) : k <:+: t := by
  obtain ⟨r, hr⟩ := List.isPrefixOf_iff_prefix.mp h
  refine ⟨t.take j, r, ?_⟩
  rw [List.append_assoc, hr, List.take_append_drop]

lemma patchPart1_ne_nil_key {keys : List (List Char)} {s : List Char}
    (h : patchPart1 keys s ≠ []) : keyAltS keys s ≠ [] := by
  intro hknil
  apply h
  show (keyAltS keys s).flatMap _ = []
  rw [hknil]
  rfl

/-- If no alias occurs anywhere in the block, group one of the patcher's
pattern matches at no suffix of the block. -/
lemma patchPart1_nil_of_no_alias (block : List Char) (keys : List (List Char))
    (hk : ∀ k ∈ keys, ¬ k <:+: block) (i : Nat) :
    patchPart1 keys (block.drop i) = [] := by
  by_contra hne
  obtain ⟨k, hkmem, hpre⟩ := keyAltS_key_occurs (patchPart1_ne_nil_key hne)
  rcases hpre with hpre | hpre
  · exact hk k hkmem (prefix_drop_isInfix k block i hpre)
  · rw [List.drop_drop] at hpre
    exact hk k hkmem (prefix_drop_isInfix k block (i + 1) hpre)

lemma patchFindAux_none_of_no_alias (block : List Char) (keys : List (List Char))
    (hk : ∀ k ∈ keys, ¬ k <:+: block) :
    ∀ fuel i, patchFindAux block keys fuel i = none := by
  intro fuel
  induction fuel with
  | zero => intro i; rfl
  | succ n ih =>
    intro i
    simp only [patchFindAux, patchPart1_nil_of_no_alias block keys hk i,
      List.flatMap_nil, List.head?_nil]
    split_ifs with hlt
    · exact ih (i + 1)
    · rfl

/-- C6 (scalar half, proved now; the full C6 theorem follows after the
array patcher is embedded): with no alias occurring in the block, the
scalar patcher returns the block unchanged with count zero. -/
lemma patch_scalar_unchanged_of_no_alias (block : List Char) (keys : List (List Char))
    (v : List Char) (hk : ∀ k ∈ keys, ¬ k <:+: block) :
    patch_scalar_in_block block keys v = (block, 0) := by
  unfold patch_scalar_in_block patchFind
  rw [patchFindAux_none_of_no_alias block keys hk]

/-! ### Pretty printers (source lines 727-786) -/

/-- Apply a function to the last element of a list of lines (Python's
assignment to `lines[-1]`). -/
def modifyLast (f : List Char → List Char) : List (List Char) → List (List Char)
  | [] => []
  | [x] => [f x]
  | x :: xs => x :: modifyLast f xs

/-- Append a suffix to the last line. -/
def appendLast (ls : List (List Char)) (suf : List Char) : List (List Char) :=
  modifyLast (fun x => x ++ suf) ls

/-- Join lines with newlines (Python `"\n".join(lines)`). -/
def joinNl (ls : List (List Char)) : List Char :=
  List.intercalate (cl ("\n")) ls

/-- Does the last line end with a comma? -/
def lastEndsComma (ls : List (List Char)) : Bool :=
  match ls.getLast? with
  | some l => l.getLast? == some ','
  | none => false

mutual

/-- `_repr_hjson_value_pretty`: dispatch container values to the pretty
printers, scalars to `_repr_hjson_scalar` (whose raising branch is
unreachable here because containers were already dispatched). -/
def repr_hjson_value_pretty : PyVal → List Char → List Char → List Char
  | PyVal.pdict d, indent, step => repr_hjson_map_pretty d indent step
  | PyVal.plist l, indent, step => repr_hjson_list_pretty l indent step
  | v, _, _ => (repr_hjson_scalar v).getD []

/-- `_repr_hjson_map_pretty`: multi-line pretty map; the trailing comma
of the last entry line is stripped when any entry was emitted. -/
def repr_hjson_map_pretty (d : List (String × PyVal)) (indent step : List Char) : List Char :=
  let bodyLines := reprMapLines d (indent ++ step) step
  let lines1 := (cl ("\x7b")) :: bodyLines
  let lines2 :=
    if bodyLines ≠ [] ∧ lastEndsComma lines1 then modifyLast List.dropLast lines1 else lines1
  joinNl (lines2 ++ [indent ++ cl ("\x7d")])

/-- The entry loop of `_repr_hjson_map_pretty`. -/
def reprMapLines : List (String × PyVal) → List Char → List Char → List (List Char)
  | [], _, _ => []
  | (k, v) :: rest, inner, step =>
    let keyStr :=
      [dqc] ++ (k.data.flatMap (fun c => if c == dqc then [bsl, dqc] else [c])) ++ [dqc]
    let valStr := repr_hjson_value_pretty v inner step
    (if valStr.contains '\n' then
      match valStr.splitOn '\n' with
      | [] => []
      | first :: rest2 =>
        appendLast ((inner ++ keyStr ++ cl (": ") ++ first) ::
          rest2.map (fun r => inner ++ r)) [',']
     else [inner ++ keyStr ++ cl (": ") ++ valStr ++ [',']]) ++ reprMapLines rest inner step

/-- `_repr_hjson_list_pretty`: multi-line pretty list; every element line
ends with a comma. -/
def repr_hjson_list_pretty (l : List PyVal) (indent step : List Char) : List Char :=
  joinNl ((cl ("[")) :: reprListLines l (indent ++ step) step ++ [indent ++ cl ("]")])

/-- The element loop of `_repr_hjson_list_pretty`. -/
def reprListLines : List PyVal → List Char → List Char → List (List Char)
  | [], _, _ => []
  | v :: rest, inner, step =>
    let valStr := repr_hjson_value_pretty v inner step
    (if valStr.contains '\n' then
      match valStr.splitOn '\n' with
      | [] => []
      | first :: rest2 =>
        appendLast ((inner ++ first) :: rest2.map (fun r => inner ++ r)) [',']
     else [inner ++ valStr ++ [',']]) ++ reprListLines rest inner step

end

/-- `_repr_hjson_list`: the compact rendering of a list of scalars; a
container element makes the scalar renderer raise, modelled as `none`. -/
def repr_hjson_list (l : List PyVal) : Option (List Char) :=
  (l.mapM repr_hjson_scalar).map
    (fun parts => cl ("[") ++ List.intercalate (cl (", ")) parts ++ cl ("]"))

/-! ### Python value helpers -/

/-- Python truthiness for the embedded value universe. -/
def pyTruthy : PyVal → Bool
  | PyVal.pstr s => !(s == "")
  | PyVal.pint n => !(n == 0)
  | PyVal.pbool b => b
  | PyVal.plist l => !l.isEmpty
  | PyVal.pdict d => !d.isEmpty

/-- Python `str()` restricted to the scalar values the surgical paths
feed it (identifiers are strings or numbers; the container branches are
never reached on the modelled paths). -/
def pyStrOf : PyVal → String
  | PyVal.pstr s => s
  | PyVal.pint n => toString n
  | PyVal.pbool b => if b then ("True") else ("False")
  | PyVal.plist _ => ""
  | PyVal.pdict _ => ""

/-- Python `dict.get`. -/
def dGet (d : List (String × PyVal)) (k : String) : Option PyVal :=
  (d.find? (fun kv => kv.1 == k)).map (fun kv => kv.2)

/-- Python `dict.pop` (key removal; keys are unique). -/
def dPop (d : List (String × PyVal)) (k : String) : List (String × PyVal) :=
  d.filter (fun kv => !(kv.1 == k))

/-- Python `dict` assignment: update in place when the key exists, else
append at the end (insertion order). -/
def dSet (d : List (String × PyVal)) (k : String) (v : PyVal) : List (String × PyVal) :=
  if (d.find? (fun kv => kv.1 == k)).isSome then
    d.map (fun kv => if kv.1 == k then (k, v) else kv)
  else d ++ [(k, v)]

/-- Python `dict.update`. -/
def dUpdate (d ups : List (String × PyVal)) : List (String × PyVal) :=
  ups.foldl (fun acc kv => dSet acc kv.1 kv.2) d

/-- Python `key in dict`. -/
def dContains (d : List (String × PyVal)) (k : String) : Bool :=
  (d.find? (fun kv => kv.1 == k)).isSome

/-! ### The external structural parser, modelled -/

/-- Skip JSON whitespace. -/
def hjSkipWs (s : List Char) : List Char := s.dropWhile isPySpace

/-- Decode a leading double-quoted string: returns the decoded content
and the rest.  Simple escapes are resolved (backslash-n, backslash-t,
otherwise the escaped character itself). -/
def hjStrAux : Nat → List Char → List Char → Option (List Char × List Char)
  | 0, _, _ => none
  | _, [], _ => none
  | fuel + 1, c :: rest, acc =>
    if c == dqc then some (acc.reverse, rest)
    else if c == bsl then
      match rest with
      | [] => none
      | e :: rest2 =>
        let dec := if e == 'n' then '\n' else if e == 't' then '\t' else e
        hjStrAux fuel rest2 (dec :: acc)
    else hjStrAux fuel rest (c :: acc)

/-- Parse a leading double-quoted string token. -/
def hjString (s : List Char) : Option (String × List Char) :=
  match s with
  | c :: rest =>
    if c == dqc then
      (hjStrAux (s.length + 1) rest []).map (fun pr => (String.mk pr.1, pr.2))
    else none
  | [] => none

/-- Parse a leading optionally signed decimal integer. -/
def hjInt (s : List Char) : Option (Int × List Char) :=
  let neg := s.head? == some '-'
  let s1 := if neg then s.drop 1 else s
  let digits := s1.takeWhile (fun c => c.isDigit)
  if digits.isEmpty then none
  else
    let n : Nat := digits.foldl (fun acc c => acc * 10 + (c.toNat - 48)) 0
    some (if neg then -(n : Int) else (n : Int), s1.drop digits.length)

/-- Parse a leading scalar value: string, boolean or integer. -/
def hjValue (s : List Char) : Option (PyVal × List Char) :=
  if s.head? == some dqc then
    (hjString s).map (fun pr => (PyVal.pstr pr.1, pr.2))
  else if (cl ("true")).isPrefixOf s then some (PyVal.pbool true, s.drop 4)
  else if (cl ("false")).isPrefixOf s then some (PyVal.pbool false, s.drop 5)
  else (hjInt s).map (fun pr => (PyVal.pint pr.1, pr.2))

/-- Parse the comma-separated pair list of a flow map, starting just
after the opening brace, ending just after the closing brace. -/
def hjPairsAux : Nat → List Char → List (String × PyVal) →
    Option (List (String × PyVal) × List Char)
  | 0, _, _ => none
  | fuel + 1, s, acc =>
    match hjString (hjSkipWs s) with
    | none => none
    | some (k, r1) =>
      match hjSkipWs r1 with
      | ':' :: r3 =>
        match hjValue (hjSkipWs r3) with
        | none => none
        | some (v, r4) =>
          let r5 := hjSkipWs r4
          if r5.head? == some ',' then hjPairsAux fuel (r5.drop 1) (acc ++ [(k, v)])
          else if r5.head? == some '}' then some (acc ++ [(k, v)], r5.drop 1)
          else none
      | _ => none

/-- Modelled from the spec: the external structural parser
(`hjson.loads` with an object-pairs hook) is a collaborator library, not
repository code.  It is modelled on the value language the surgical
paths feed it in this development: a flat flow map with double-quoted
keys whose values are double-quoted strings, booleans or integers.
Any other document shape is reported unparsable (`none`), which the
callers treat exactly like a block skipped by their
`except: continue` guard. -/
def hjson_loads_flat (s : List Char) : Option (List (String × PyVal)) :=
  match hjSkipWs s with
  | '{' :: r =>
    let r1 := hjSkipWs r
    if r1.head? == some '}' then
      if hjSkipWs (r1.drop 1) == ([] : List Char) then some [] else none
    else
      match hjPairsAux (s.length + 1) r [] with
      | none => none
      | some (pairs, rest) =>
        if hjSkipWs rest == ([] : List Char) then some pairs else none
  | _ => none

/-! ### The array patcher `_patch_list_in_block` (source lines 1130-1227) -/

/-- The head search of `_patch_list_in_block`: leftmost match of the
key-colon-comments pattern; returns the match end offset. -/
def headFindAux (block : List Char) (keys : List (List Char)) :
    Nat → Nat → Option Nat
  | 0, _ => none
  | fuel + 1, i =>
    match (patchPart1 keys (block.drop i)).head? with
    | some n1 => some (i + n1)
    | none => if i < block.length then headFindAux block keys fuel (i + 1) else none

/-- The head search over the whole block. -/
def headFind (block : List Char) (keys : List (List Char)) : Option Nat :=
  headFindAux block keys (block.length + 1) 0

/-- The list patcher's local line-comment skip: stops at the newline. -/
def skipLineCommentAt (t : List Char) (j : Nat) : Nat :=
  match pyFindChar t '\n' j with
  | none => t.length
  | some nl => nl

/-- The list patcher's local block-comment skip. -/
def skipBlockCommentAt (t : List Char) (j : Nat) : Nat :=
  match pyFindSub t (cl ("*/")) (j + 2) with
  | none => t.length
  | some e => e + 2

/-- Result of the list patcher's walk from the colon to the value. -/
inductive ListSkipResult where
  | bracket (i : Nat)
  | fallbackScalar
  | offEnd

/-- The list patcher's walk from just after the matched colon towards the
opening bracket: comments and whitespace are skipped; a bracket stops the
walk; any other significant character selects the scalar fallback. -/
def listSkipLoop (block : List Char) : Nat → Nat → ListSkipResult
  | 0, _ => ListSkipResult.offEnd
  | fuel + 1, i =>
    match block.get? i with
    | none => ListSkipResult.offEnd
    | some ch =>
      if two block i '/' '/' || ch == '#' then
        listSkipLoop block fuel (skipLineCommentAt block i)
      else if two block i '/' '*' then
        listSkipLoop block fuel (skipBlockCommentAt block i)
      else if isPySpace ch then listSkipLoop block fuel (i + 1)
      else if ch == '[' then ListSkipResult.bracket i
      else ListSkipResult.fallbackScalar

/-- The list patcher's bracket balance (this one performs real escape
lookahead: the comparison is against the single backslash character). -/
def listBalanceAux (block : List Char) :
    Nat → Nat → Int → Bool → Bool → Bool → Option Nat
  | 0, _, _, _, _, _ => none
  | fuel + 1, j, depth, inDq, inSq, esc =>
    match block.get? j with
    | none => none
    | some ch =>
      if !(inDq || inSq) && (two block j '/' '/' || ch == '#') then
        listBalanceAux block fuel (skipLineCommentAt block j) depth inDq inSq esc
      else if !(inDq || inSq) && two block j '/' '*' then
        listBalanceAux block fuel (skipBlockCommentAt block j) depth inDq inSq esc
      else if inDq || inSq then
        if esc then listBalanceAux block fuel (j + 1) depth inDq inSq false
        else if ch == bsl then listBalanceAux block fuel (j + 1) depth inDq inSq true
        else if inDq && ch == dqc then listBalanceAux block fuel (j + 1) depth false inSq esc
        else if inSq && ch == sqc then listBalanceAux block fuel (j + 1) depth inDq false esc
        else listBalanceAux block fuel (j + 1) depth inDq inSq esc
      else
        if ch == dqc then listBalanceAux block fuel (j + 1) depth true inSq esc
        else if ch == sqc then listBalanceAux block fuel (j + 1) depth inDq true esc
        else if ch == '[' then listBalanceAux block fuel (j + 1) (depth + 1) inDq inSq esc
        else if ch == ']' then
          if depth - 1 == 0 then some (j + 1)
          else listBalanceAux block fuel (j + 1) (depth - 1) inDq inSq esc
        else listBalanceAux block fuel (j + 1) depth inDq inSq esc

/-- `_patch_list_in_block`: replace the whole bracketed slice of the
first key match; fall back to scalar replacement when the value is not a
list; report zero when the key is absent or the bracket never closes. -/
def patch_list_in_block (block : List Char) (keys : List (List Char))
    (newListStr : Option (List Char)) (newListObj : Option (List PyVal)) :
    List Char × Nat :=
  match headFind block keys with
  | none => (block, 0)
  | some pos =>
    let lineStart :=
      match pyRfindChar block '\n' pos with
      | none => 0
      | some nl => nl + 1
    let baseIndent :=
      ((block.drop lineStart).take (pos - lineStart)).takeWhile
        (fun c => c == ' ' || c == '\t')
    match listSkipLoop block (block.length + 1) pos with
    | ListSkipResult.fallbackScalar =>
      match newListStr, newListObj with
      | none, some l =>
        patch_scalar_in_block block keys (repr_hjson_list_pretty l baseIndent (cl ("  ")))
      | ls, _ =>
        patch_scalar_in_block block keys
          (match ls with
           | some s => if s.isEmpty then cl ("[]") else s
           | none => cl ("[]"))
    | ListSkipResult.offEnd => (block, 0)
    | ListSkipResult.bracket start =>
      match listBalanceAux block (block.length + 1) start 0 false false false with
      | none => (block, 0)
      | some endPos =>
        let rendered :=
          match newListStr, newListObj with
          | none, some l => repr_hjson_list_pretty l baseIndent (cl ("  "))
          | some s, _ => s
          | none, none => cl ("[]")
        (block.take start ++ rendered ++ block.drop endPos, 1)

/-- The alias extension of the update loop of
`_surgical_save_current_ship` (source lines 1454-1458). -/
def key_forms (k : String) : List (List Char) :=
  [k.data] ++
    (if k == "Key" then [(String.data ("key"))] else []) ++
    (if k == "name" then [(String.data ("Name"))] else []) ++
    (if k == "side" then [(String.data ("Side"))] else []) ++
    (if k == "artfileroot" then [(String.data ("Artfileroot"))] else [])

/-- One iteration of the update loop of `_surgical_save_current_ship`
(source lines 1452-1474): alias extension, list versus scalar dispatch,
and the keep-block-on-zero-count rule; a renderer raise is `none`. -/
def apply_one_update (block : List Char) (k : String) (v : PyVal) : Option (List Char) :=
  match v with
  | PyVal.plist l =>
    let containsDict := l.any (fun x => match x with | PyVal.pdict _ => true | _ => false)
    if containsDict || k == "torpedostart" then
      let r := patch_list_in_block block (key_forms k) none (some l)
      some (if r.2 > 0 then r.1 else block)
    else
      match repr_hjson_list l with
      | none => none
      | some vstr =>
        let r := patch_list_in_block block (key_forms k) (some vstr) none
        some (if r.2 > 0 then r.1 else block)
  | _ =>
    match repr_hjson_scalar v with
    | none => none
    | some vstr =>
      let r := patch_scalar_in_block block (key_forms k) vstr
      some (if r.2 > 0 then r.1 else block)

lemma headFindAux_none_of_no_alias (block : List Char) (keys : List (List Char))
    (hk : ∀ k ∈ keys, ¬ k <:+: block) :
    ∀ fuel i, headFindAux block keys fuel i = none := by
  intro fuel
  induction fuel with
  | zero => intro i; rfl
  | succ n ih =>
    intro i
    simp only [headFindAux, patchPart1_nil_of_no_alias block keys hk i, List.head?_nil]
    split_ifs with h
    · exact ih (i + 1)
    · rfl

lemma patch_list_unchanged_of_no_alias (block : List Char) (keys : List (List Char))
    (lstr : Option (List Char)) (lobj : Option (List PyVal))
    (hk : ∀ k ∈ keys, ¬ k <:+: block) :
    patch_list_in_block block keys lstr lobj = (block, 0) := by
  unfold patch_list_in_block headFind
  rw [headFindAux_none_of_no_alias block keys hk]

/-- C6: when no alias of a field occurs in the object-span text, the
scalar patcher and the array patcher both return the text unchanged with
replacement count zero, and the enclosing update-loop step for that field
leaves the object-span text unchanged whenever it completes — no key is
invented during an update. -/
theorem C6_absent_key_leaves_block_unchanged (block : List Char) (k : String)
    (pv : PyVal) (v : List Char) (lstr : Option (List Char)) (lobj : Option (List PyVal))
    (hk : ∀ a ∈ key_forms k, ¬ a <:+: block) :
    patch_scalar_in_block block (key_forms k) v = (block, 0) ∧
    patch_list_in_block block (key_forms k) lstr lobj = (block, 0) ∧
    ∀ r, apply_one_update block k pv = some r → r = block := by
  refine ⟨patch_scalar_unchanged_of_no_alias _ _ _ hk,
    patch_list_unchanged_of_no_alias _ _ _ _ hk, ?_⟩
  intro r hr
  cases pv with
  | plist l =>
    simp only [apply_one_update] at hr
    by_cases h1 : (l.any fun x => match x with | PyVal.pdict _ => true | _ => false) ||
        k == "torpedostart"
    · rw [if_pos h1, patch_list_unchanged_of_no_alias block (key_forms k) none (some l) hk]
        at hr
      simpa using hr.symm
    · rw [if_neg h1] at hr
      cases hrl : repr_hjson_list l with
      | none => simp [hrl] at hr
      | some vstr =>
        simp only [hrl] at hr
        rw [patch_list_unchanged_of_no_alias block (key_forms k) (some vstr) none hk] at hr
        simpa using hr.symm
  | pstr s =>
    simp only [apply_one_update, repr_hjson_scalar] at hr
    rw [patch_scalar_unchanged_of_no_alias block (key_forms k) _ hk] at hr
    simpa using hr.symm
  | pint n =>
    simp only [apply_one_update, repr_hjson_scalar] at hr
    rw [patch_scalar_unchanged_of_no_alias block (key_forms k) _ hk] at hr
    simpa using hr.symm
  | pbool b =>
    simp only [apply_one_update, repr_hjson_scalar] at hr
    rw [patch_scalar_unchanged_of_no_alias block (key_forms k) _ hk] at hr
    simpa using hr.symm
  | pdict d =>
    simp [apply_one_update, repr_hjson_scalar] at hr

/-- Witness for C6 on a concrete block that holds no `side`/`Side` key. -/
theorem C6_witness :
    patch_scalar_in_block c2block (key_forms ("side")) (cl ("\"x\"")) = (c2block, 0) ∧
    patch_list_in_block c2block (key_forms ("side")) none none = (c2block, 0) ∧
    ∀ r, apply_one_update c2block ("side") (PyVal.pstr ("x")) = some r → r = c2block :=
  C6_absent_key_leaves_block_unchanged c2block ("side") (PyVal.pstr ("x"))
    (cl ("\"x\"")) none none (by decide)

/-! ### The whole-document key scan `_iter_object_spans_for_key`
(source lines 953-1100) -/

/-- Characters other than double quote and backslash. -/
def noQB : EnumM := eChar (fun c => !(c == dqc) && !(c == bsl))

/-- The double-quoted value group body of the key pattern:
a run of plain characters, then any number of (escape then plain run). -/
def dvalBody : EnumM :=
  eSeq (eStar noQB) (eStar (eSeq (eSeq bslE anyC) (eStar noQB)))

/-- Characters other than single quote and backslash. -/
def noSB : EnumM := eChar (fun c => !(c == sqc) && !(c == bsl))

/-- The single-quoted value group body of the key pattern. -/
def svalBody : EnumM :=
  eSeq (eStar noSB) (eStar (eSeq (eSeq bslE anyC) (eStar noSB)))

/-- The bare value class of the key pattern: letters, digits, underscore,
hyphen, dot. -/
def bareKeyChar : EnumM :=
  eChar (fun c => c.isAlpha || c.isDigit || c == '_' || c == '-' || c == '.')

/-- The value alternation of the key pattern, with the decoded group
content: a double-quoted token (content is the raw text between the
quotes), a single-quoted token, or a bare token.  The Python value
retrieval chains the groups with `or`; an empty matched group falls
through, but every fallback is empty too, so the retrieved value always
equals the matched group content. -/
def kpValMatches (s : List Char) : List (Nat × List Char) :=
  (if s.head? == some dqc then
    (dvalBody (s.drop 1)).filterMap (fun nb =>
      if (s.drop (1 + nb)).head? == some dqc then some (nb + 2, (s.drop 1).take nb)
      else none)
   else []) ++
  (if s.head? == some sqc then
    (svalBody (s.drop 1)).filterMap (fun nb =>
      if (s.drop (1 + nb)).head? == some sqc then some (nb + 2, (s.drop 1).take nb)
      else none)
   else []) ++
  ((ePlus bareKeyChar s).map (fun n => (n, s.take n)))

/-- The head of the key pattern: optional quote, `K` or `k`, `ey`,
optional quote, whitespace, colon, whitespace, interstitial comments. -/
def kpHead : EnumM :=
  eSeq (eOpt dquoteE)
    (eSeq (eChar (fun c => c == 'K' || c == 'k'))
      (eSeq (eLit (cl ("ey")))
        (eSeq (eOpt dquoteE)
          (eSeq wsS (eSeq colonE (eSeq wsS cmtS))))))

/-- Attempt the key pattern at offset `i`: total match length and the
decoded value content of the first match in backtracking order. -/
def kpMatchAt (t : List Char) (i : Nat) : Option (Nat × List Char) :=
  ((kpHead (t.drop i)).flatMap
    (fun n1 => (kpValMatches ((t.drop i).drop n1)).map
      (fun pr => (n1 + pr.1, pr.2)))).head?

/-- `re.finditer` of the key pattern: leftmost matches, continuing after
each match end; every match consumes at least the three key characters,
so the scan advances. -/
def kpFindIterAux (t : List Char) : Nat → Nat → List (Nat × Nat × List Char)
  | 0, _ => []
  | fuel + 1, i =>
    if i ≤ t.length then
      match kpMatchAt t i with
      | some (len, mv) => (i, i + len, mv) :: kpFindIterAux t fuel (i + len)
      | none => kpFindIterAux t fuel (i + 1)
    else []

/-- All key-pattern matches of the document. -/
def kpFindIter (t : List Char) : List (Nat × Nat × List Char) :=
  kpFindIterAux t (t.length + 2) 0

/-- The backward brace walk of `find_object_bounds` (source lines
988-1019): walk from the anchor towards the start of the text, tracking
string state and closing-brace depth; an opening brace at depth zero is
the enclosing object's start. -/
def fobBackAux (raw : List Char) : Nat → Nat → Int → Bool → Bool → Bool → Option Nat
  | 0, _, _, _, _, _ => none
  | fuel + 1, i, depth, inDq, inSq, esc =>
    match raw.get? i with
    | none => none
    | some ch =>
      let next := fun (d : Int) (a b c : Bool) =>
        if i == 0 then none else fobBackAux raw fuel (i - 1) d a b c
      if inDq || inSq then
        if esc then next depth inDq inSq false
        else if ch == bsl then next depth inDq inSq true
        else if inDq && ch == dqc then next depth false inSq esc
        else if inSq && ch == sqc then next depth inDq false esc
        else next depth inDq inSq esc
      else
        if ch == dqc then next depth true inSq esc
        else if ch == sqc then next depth inDq true esc
        else if ch == '}' then next (depth + 1) inDq inSq esc
        else if ch == '{' then
          if depth == 0 then some i
          else next (depth - 1) inDq inSq esc
        else next depth inDq inSq esc

/-- The fallback of `find_object_bounds` (source lines 1021-1031): the
last match of a line-anchored whitespace-then-brace pattern in the text
before the anchor, returning the brace position.  The pattern's
whitespace class includes newlines, and a shorter whitespace run would
end on a whitespace character, so the greedy run is the only candidate. -/
def lineBraceLastAux (u : List Char) : Nat → Nat → Option Nat → Option Nat
  | 0, _, acc => acc
  | fuel + 1, p, acc =>
    if p < u.length then
      if p == 0 || u.get? (p - 1) == some '\n' then
        let q := p + ((u.drop p).takeWhile isPySpace).length
        if u.get? q == some '{' then lineBraceLastAux u fuel (q + 1) (some q)
        else lineBraceLastAux u fuel (p + 1) acc
      else lineBraceLastAux u fuel (p + 1) acc
    else acc

/-- The forward balance of `find_object_bounds` (source lines 1033-1083):
comment-aware, string-aware brace balance from the opening brace,
returning the offset just past the matching closing brace. -/
def fobFwdAux (raw : List Char) : Nat → Nat → Int → Bool → Bool → Bool → Option Nat
  | 0, _, _, _, _, _ => none
  | fuel + 1, i, depth, inDq, inSq, esc =>
    match raw.get? i with
    | none => none
    | some ch =>
      if !(inDq || inSq) && (two raw i '/' '/' || ch == '#') then
        fobFwdAux raw fuel (skipLineCommentAt raw i) depth inDq inSq esc
      else if !(inDq || inSq) && two raw i '/' '*' then
        fobFwdAux raw fuel (skipBlockCommentAt raw i) depth inDq inSq esc
      else if inDq || inSq then
        if esc then fobFwdAux raw fuel (i + 1) depth inDq inSq false
        else if ch == bsl then fobFwdAux raw fuel (i + 1) depth inDq inSq true
        else if inDq && ch == dqc then fobFwdAux raw fuel (i + 1) depth false inSq esc
        else if inSq && ch == sqc then fobFwdAux raw fuel (i + 1) depth inDq false esc
        else fobFwdAux raw fuel (i + 1) depth inDq inSq esc
      else
        if ch == dqc then fobFwdAux raw fuel (i + 1) depth true inSq esc
        else if ch == sqc then fobFwdAux raw fuel (i + 1) depth inDq true esc
        else if ch == '{' then fobFwdAux raw fuel (i + 1) (depth + 1) inDq inSq esc
        else if ch == '}' then
          if depth - 1 == 0 then some (i + 1)
          else fobFwdAux raw fuel (i + 1) (depth - 1) inDq inSq esc
        else fobFwdAux raw fuel (i + 1) depth inDq inSq esc

/-- `find_object_bounds`: backward precise walk, then the line-anchored
fallback, then the forward balance. -/
def find_object_bounds (raw : List Char) (anchor : Nat) : Option (Nat × Nat) :=
  let start? :=
    match fobBackAux raw (anchor + 1) anchor 0 false false false with
    | some s => some s
    | none => lineBraceLastAux (raw.take anchor) (anchor + 1) 0 none
  match start? with
  | none => none
  | some start =>
    (fobFwdAux raw (raw.length + 1) start 0 false false false).map (fun e => (start, e))

/-- `_iter_object_spans_for_key`: for every key-pattern match whose
decoded value equals the wanted value, the resolved object bounds, in
match order; matches without resolvable bounds are skipped. -/
def iter_object_spans_for_key (raw : List Char) (wanted : List Char) :
    List (Nat × Nat) :=
  (kpFindIter raw).filterMap
    (fun m => if m.2.2 == wanted then find_object_bounds raw m.1 else none)

/-! ### Record deletion `_surgical_delete_ship_by_key`
(source lines 1360-1394) -/

/-- The backward whitespace walk of the deletion: step left from just
before the record span while above the array start and on whitespace. -/
def delBackWalkAux (raw : List Char) (arrStart : Int) : Nat → Int → Int
  | 0, i => i
  | fuel + 1, i =>
    if i > arrStart &&
        (match raw.get? i.toNat with | some c => isPySpace c | none => false) then
      delBackWalkAux raw arrStart fuel (i - 1)
    else i

/-- The forward whitespace walk of the deletion: step right from the
record span end over whitespace. -/
def delFwdWalkAux (raw : List Char) : Nat → Nat → Nat
  | 0, j => j
  | fuel + 1, j =>
    if j < raw.length &&
        (match raw.get? j with | some c => isPySpace c | none => false) then
      delFwdWalkAux raw fuel (j + 1)
    else j

/-- Does a comma immediately precede the record span (skipping
whitespace, bounded by the array start)?  This is the case split of the
deletion's separator resolution. -/
def delPrecededByComma (raw : List Char) (arrStart start : Nat) : Bool :=
  let i : Int := delBackWalkAux raw (arrStart : Int) (start + 1) ((start : Int) - 1)
  i ≥ (arrStart : Int) &&
    (match raw.get? i.toNat with | some c => c == ',' | none => false)

/-- The position of that preceding comma. -/
def delCommaPos (raw : List Char) (arrStart start : Nat) : Nat :=
  (delBackWalkAux raw (arrStart : Int) (start + 1) ((start : Int) - 1)).toNat

/-- The removal end offset on the no-preceding-comma path: past the
span's trailing whitespace and at most one following comma. -/
def delAfterPos (raw : List Char) (end_ : Nat) : Nat :=
  let j0 := delFwdWalkAux raw (raw.length + 1) end_
  if j0 < raw.length && (match raw.get? j0 with | some c => c == ',' | none => false)
  then j0 + 1 else j0

/-- `_surgical_delete_ship_by_key`: locate the record, then remove
either from the preceding comma through the span end, or from the span
start through the trailing whitespace and at most one following comma;
report whether anything was removed together with the new text. -/
def surgical_delete_ship_by_key (raw : List Char) (keyValue : List Char) :
    Bool × List Char :=
  if raw.isEmpty then (false, raw)
  else
    match extract_ship_list_region raw with
    | none => (false, raw)
    | some (arrStart, _arrEnd) =>
      match (iter_object_spans_for_key raw keyValue).head? with
      | none => (false, raw)
      | some (start, end_) =>
        if delPrecededByComma raw arrStart start then
          (true, raw.take (delCommaPos raw arrStart start) ++ raw.drop end_)
        else
          (true, raw.take start ++ raw.drop (delAfterPos raw end_))

/-! ### Record insertion `_surgical_insert_ship_block`
(source lines 1230-1358) -/

/-- The preferred key spellings deduced from one sample record
(`_deduce_key_style`). -/
structure KeyStyle where
  key : String
  name : String
  side : String
  artfileroot : String

/-- `_deduce_key_style`: prefer the spelling present in the sample. -/
def deduce_key_style (d : List (String × PyVal)) : KeyStyle :=
  KeyStyle.mk
    (if dContains d ("Key") then ("Key") else if dContains d ("key") then ("key") else ("Key"))
    (if dContains d ("Name") then ("Name") else if dContains d ("name") then ("name")
     else ("name"))
    (if dContains d ("Side") then ("Side") else if dContains d ("side") then ("side")
     else ("side"))
    (if dContains d ("Artfileroot") then ("Artfileroot")
     else if dContains d ("artfileroot") then ("artfileroot") else ("artfileroot"))

/-- `_ship_list_indentation`: infer the base indent (whatever precedes
the opening bracket on its line), the item indent (the line prefix of the
first record, else base plus two spaces) and the linebreak style. -/
def ship_list_indentation (raw : List Char) (arrStart arrEnd : Nat) :
    List Char × List Char × List Char :=
  let lb := if (pyFindSub raw (cl ("\x0d\n")) 0).isSome then cl ("\x0d\n") else cl ("\n")
  let lineStart := match pyRfindChar raw '\n' arrStart with | none => 0 | some nl => nl + 1
  let baseIndent := (raw.drop lineStart).take (arrStart - lineStart)
  let itemIndent :=
    match (iter_top_level_flow_maps raw arrStart arrEnd).head? with
    | none => baseIndent ++ cl ("  ")
    | some sp =>
      let ls := match pyRfindChar raw '\n' sp.1 with | none => 0 | some nl => nl + 1
      (raw.drop ls).take (sp.1 - ls)
  (baseIndent, itemIndent, lb)

/-- The key ordering preferred when rendering a brand-new record
(`_render_ship_block`). -/
def shipOrdering : List String :=
  [("Key"), ("key"), ("Name"), ("name"), ("Side"), ("side"), ("Artfileroot"), ("artfileroot")]

/-- `_render_ship_block`: reorder the known identity keys to the front
(popping each present key), keep the remainder in insertion order, and
pretty-print at the item indent less one step. -/
def render_ship_block (ship : List (String × PyVal)) (itemIndent : List Char) : List Char :=
  let step := shipOrdering.foldl
    (fun (pr : List (String × PyVal) × List (String × PyVal)) k =>
      match dGet pr.2 k with
      | some v => (pr.1 ++ [(k, v)], dPop pr.2 k)
      | none => pr) ([], ship)
  repr_hjson_map_pretty (step.1 ++ step.2)
    (if itemIndent.length ≥ 2 then itemIndent.take (itemIndent.length - 2) else cl (""))
    (cl ("  "))

/-- Python `str.strip()` for the whitespace the rendered block can carry. -/
def pyStrip (s : List Char) : List Char :=
  ((s.dropWhile isPySpace).reverse.dropWhile isPySpace).reverse

/-- One spelling move of the insert's key-style application:
`s[dst] = s.pop(src)`. -/
def moveKey (s : List (String × PyVal)) (src dst : String) : List (String × PyVal) :=
  match dGet s src with
  | some v => dSet (dPop s src) dst v
  | none => s

/-- The eight style conditionals of `_surgical_insert_ship_block`
(source lines 1300-1316). -/
def applyKeyStyle (s0 : List (String × PyVal)) (st : KeyStyle) : List (String × PyVal) :=
  let s1 := if dContains s0 ("Key") && st.key == "key" then moveKey s0 ("Key") ("key") else s0
  let s2 := if dContains s1 ("key") && st.key == "Key" then moveKey s1 ("key") ("Key") else s1
  let s3 := if dContains s2 ("Name") && st.name == "name" then moveKey s2 ("Name") ("name")
    else s2
  let s4 := if dContains s3 ("name") && st.name == "Name" then moveKey s3 ("name") ("Name")
    else s3
  let s5 := if dContains s4 ("Side") && st.side == "side" then moveKey s4 ("Side") ("side")
    else s4
  let s6 := if dContains s5 ("side") && st.side == "Side" then moveKey s5 ("side") ("Side")
    else s5
  let s7 := if dContains s6 ("Artfileroot") && st.artfileroot == "artfileroot" then
      moveKey s6 ("Artfileroot") ("artfileroot") else s6
  if dContains s7 ("artfileroot") && st.artfileroot == "Artfileroot" then
    moveKey s7 ("artfileroot") ("Artfileroot") else s7

/-- The sample probe of the insert: the first record the structural
parser accepts decides the key style; with no parsable record, the
defaults. -/
def probeKeyStyle (raw : List Char) (arrStart arrEnd : Nat) : KeyStyle :=
  match (iter_top_level_flow_maps raw arrStart arrEnd).findSome?
      (fun sp => hjson_loads_flat ((raw.drop sp.1).take (sp.2 - sp.1))) with
  | some sample => deduce_key_style sample
  | none => KeyStyle.mk ("Key") ("name") ("side") ("artfileroot")

/-- Python truthiness of an optional value (`dict.get` result). -/
def optTruthy : Option PyVal → Bool
  | none => false
  | some v => pyTruthy v

/-- The Python idiom `a or b or ""` over two `dict.get` results: the
first truthy value, else the empty string. -/
def pyOrChain (a b : Option PyVal) : PyVal :=
  match a with
  | some v =>
    if pyTruthy v then v
    else
      match b with
      | some w => if pyTruthy w then w else PyVal.pstr ("")
      | none => PyVal.pstr ("")
  | none =>
    match b with
    | some w => if pyTruthy w then w else PyVal.pstr ("")
    | none => PyVal.pstr ("")

/-- ASCII lowering of one character (Python `str.casefold` coincides
with lowercasing on the ASCII identifiers in scope). -/
def asciiLowerChar (c : Char) : Char :=
  if 'A' ≤ c ∧ c ≤ 'Z' then Char.ofNat (c.toNat + 32) else c

/-- ASCII lowering of a string. -/
def asciiLower (s : String) : String := String.mk (s.data.map asciiLowerChar)

/-- The record's clustering value: side or Side, casefolded; a truthy
non-string makes the Python attribute access raise, modelled as `none`. -/
def newSideOf (s : List (String × PyVal)) : Option String :=
  match pyOrChain (dGet s ("side")) (dGet s ("Side")) with
  | PyVal.pstr str => some (asciiLower str)
  | _ => none

/-- The clustering scan of the insert: the end offset of the last record
whose side equals the new record's (casefolded); unparsable blocks are
skipped; a raising side extraction aborts (outer `none`). -/
def clusterScan (raw : List Char) (arrStart arrEnd : Nat) (newSide : String) :
    Option (Option Nat) :=
  (iter_top_level_flow_maps raw arrStart arrEnd).foldlM
    (fun st sp =>
      match hjson_loads_flat ((raw.drop sp.1).take (sp.2 - sp.1)) with
      | none => some st
      | some d =>
        match newSideOf d with
        | none => none
        | some sv => some (if sv == newSide then some sp.2 else st))
    none

/-- The append path's separator test (source lines 1341-1345): walk
back from just before the closing bracket over whitespace (bounded by
the array start); a separator is needed when the character reached is
not the opening bracket.  For comment-free arrays this coincides with
"the array already holds a record", but any non-whitespace text — for
example a comment before the closing bracket — also triggers the
separator. -/
def appendNeedsComma (raw : List Char) (arrStart insertionPos : Nat) : Bool :=
  let i := delBackWalkAux raw (arrStart : Int) (insertionPos + 1) ((insertionPos : Int) - 1)
  match raw.get? i.toNat with
  | some c => !(c == '[')
  | none => true

/-- `_surgical_insert_ship_block`: choose the insertion point (after the
last same-side record, else just before the closing bracket), decide the
separators, render the new record and splice; the raise paths are
`none`. -/
def surgical_insert_ship_block (raw : List Char) (ship : List (String × PyVal))
    (clusterBySide : Bool) : Option (List Char) :=
  if raw.isEmpty then none
  else
    match extract_ship_list_region raw with
    | none => none
    | some (arrStart, arrEnd) =>
      let bil := ship_list_indentation raw arrStart arrEnd
      let itemIndent := bil.2.1
      let lb := bil.2.2
      let s := applyKeyStyle ship (probeKeyStyle raw arrStart arrEnd)
      match newSideOf s with
      | none => none
      | some newSide =>
        let scan :=
          if clusterBySide && !(newSide == "") then clusterScan raw arrStart arrEnd newSide
          else some none
        match scan with
        | none => none
        | some sameSideLastEnd =>
          let insertionPos :=
            match sameSideLastEnd with
            | some be => be
            | none => arrEnd - 1
          let trailingCommaNeeded :=
            match sameSideLastEnd with
            | some _ => true
            | none => appendNeedsComma raw arrStart insertionPos
          let blockTxt := render_ship_block s itemIndent
          let add :=
            (if trailingCommaNeeded then [','] ++ lb else []) ++
            itemIndent ++ pyStrip blockTxt ++
            (match sameSideLastEnd with | some _ => [','] | none => []) ++ lb
          some (raw.take insertionPos ++ add ++ raw.drop insertionPos)

/-! ### Record update `_surgical_save_current_ship`
(source lines 1395-1482; the final file write is external storage I/O
and is outside the embedded state) -/

/-- The locate phase of the save: search by the truthy Key/key value,
then fall back to the name value. -/
def locate_span (raw : List Char) (ship : List (String × PyVal)) : Option (Nat × Nat) :=
  let gK := dGet ship ("Key")
  let gk := dGet ship ("key")
  let keyVal := if optTruthy gK then gK else gk
  let nameVal := dGet ship ("name")
  let span1 :=
    if optTruthy keyVal then
      (iter_object_spans_for_key raw (pyStrOf (keyVal.getD (PyVal.pstr ("")))).data).head?
    else none
  match span1 with
  | some sp => some sp
  | none =>
    if optTruthy nameVal then
      (iter_object_spans_for_key raw (pyStrOf (nameVal.getD (PyVal.pstr ("")))).data).head?
    else none

/-- The relocation after an insert-on-missing: by Key/key if truthy,
else by name if truthy, else fail. -/
def relocate_span (raw : List Char) (ship : List (String × PyVal)) : Option (Nat × Nat) :=
  let gK := dGet ship ("Key")
  let gk := dGet ship ("key")
  let keyVal := if optTruthy gK then gK else gk
  let nameVal := dGet ship ("name")
  if optTruthy keyVal then
    (iter_object_spans_for_key raw (pyStrOf (keyVal.getD (PyVal.pstr ("")))).data).head?
  else if optTruthy nameVal then
    (iter_object_spans_for_key raw (pyStrOf (nameVal.getD (PyVal.pstr ("")))).data).head?
  else none

/-- The patch-splice-stamp phase of the save: apply every update (keys
in sorted order) to the located block, splice the block back, stamp the
banner. -/
def save_finish (bannerRaw raw : List Char) (span : Nat × Nat)
    (updates : List (String × PyVal)) : Option (List Char) :=
  let start := span.1
  let end_ := span.2
  let block0 := (raw.drop start).take (end_ - start)
  match ((updates.map (fun kv => kv.1)).mergeSort (fun a b => decide (a ≤ b))).foldlM
      (fun block k =>
        match dGet updates k with
        | none => some block
        | some v => apply_one_update block k v) block0 with
  | none => none
  | some block =>
    some (upsert_editor_banner_simple bannerRaw (raw.take start ++ block ++ raw.drop end_))

/-- `_surgical_save_current_ship`: locate and patch in place; with no
record matching the discriminant, recover by inserting the merged record
and patching the re-located block. -/
def surgical_save_current_ship (bannerRaw raw : List Char)
    (ship updates : List (String × PyVal)) : Option (List Char) :=
  if raw.isEmpty then none
  else
    match locate_span raw ship with
    | some sp => save_finish bannerRaw raw sp updates
    | none =>
      match surgical_insert_ship_block raw (dUpdate ship updates) true with
      | none => none
      | some raw1 =>
        match relocate_span raw1 ship with
        | none => none
        | some sp1 => save_finish bannerRaw raw1 sp1 updates

/-! ### C3, C4 and C5 -/

/-- The C3 document: the ship list holds one record with key `b` and
side `c`. -/
def d3doc : List Char :=
  cl ("\x7b\"#ship-list\": [\n  \x7b\"Key\": \"b\", \"side\": \"c\"\x7d\n]\x7d")

/-- The C3 new record, clustering with side `c` (casefolded from `C`). -/
def ship3 : List (String × PyVal) :=
  [(("Key"), PyVal.pstr ("c2")), (("side"), PyVal.pstr ("C"))]

/-- Shared helper: the splice equation of the clustered insert path. -/
lemma insert_clustered_splice_eq
    (raw : List Char) (ship s : List (String × PyVal))
    (arrStart arrEnd be : Nat) (newSide : String)
    (baseIndent itemIndent lb : List Char)
    (hraw : raw.isEmpty = false)
    (hregion : extract_ship_list_region raw = some (arrStart, arrEnd))
    (hbil : ship_list_indentation raw arrStart arrEnd = (baseIndent, itemIndent, lb))
    (hstyle : applyKeyStyle ship (probeKeyStyle raw arrStart arrEnd) = s)
    (hside : newSideOf s = some newSide)
    (hnsne : (newSide == "") = false)
    (hscan : clusterScan raw arrStart arrEnd newSide = some (some be)) :
    surgical_insert_ship_block raw ship true =
      some (raw.take be ++
        (([','] ++ lb) ++ itemIndent ++ pyStrip (render_ship_block s itemIndent) ++
          [','] ++ lb) ++
        raw.drop be) := by
  unfold surgical_insert_ship_block
  simp only [hraw, Bool.false_eq_true, if_false, hregion, hbil, hstyle, hside, hnsne,
    Bool.not_false, Bool.and_true, if_true, hscan]

/-- The rendering of the C3 record at the inferred item indent. -/
lemma render_ship3_eq :
    render_ship_block ship3 (cl ("  ")) =
      cl ("\x7b\n  \"Key\": \"c2\",\n  \"side\": \"C\"\n\x7d") := by
  have h0 : render_ship_block ship3 (cl ("  ")) =
      repr_hjson_map_pretty [(("Key"), PyVal.pstr ("c2")), (("side"), PyVal.pstr ("C"))]
        (cl ("")) (cl ("  ")) := rfl
  rw [h0]
  simp only [repr_hjson_map_pretty, reprMapLines, repr_hjson_value_pretty, repr_hjson_scalar]
  decide

/-- The full text produced by the C3 insertion. -/
def r3lit : List Char :=
  cl ("\x7b\"#ship-list\": [\n  \x7b\"Key\": \"b\", \"side\": \"c\"\x7d,\n  \x7b\n  \"Key\": \"c2\",\n  \"side\": \"C\"\n\x7d,\n\n]\x7d")

set_option maxRecDepth 8000 in
/-- C3 (counterexample): inserting the same-side record after the last
record of the array emits a trailing separator even though no sibling
follows.  In the result, the inserted record is the last object span of
the array region, and the character immediately past its span end is a
comma — contradicting "a trailing separator exactly when more siblings
follow". -/
theorem C3_trailing_separator_after_last_record :
    surgical_insert_ship_block d3doc ship3 true = some r3lit ∧
    extract_ship_list_region r3lit = some (15, 84) ∧
    iter_top_level_flow_maps r3lit 15 84 = [(19, 44), (48, 80)] ∧
    r3lit.get? 80 = some ',' := by
  refine ⟨?_, by decide, by decide, by decide⟩
  have h := insert_clustered_splice_eq d3doc ship3 ship3 15 46 44 ("c")
    (cl ("\x7b\"#ship-list\": ")) (cl ("  ")) (cl ("\n"))
    (by decide) (by decide) (by decide) (by rfl) (by decide) (by decide) (by decide)
  rw [h, render_ship3_eq]
  decide

/-- Shared helper: the splice equation of the append insert path.  It is
taken when the new side is empty (the scan is skipped) or when the
clustering scan finds no same-side record; the record goes just before
the closing bracket, with no trailing separator and a leading separator
iff `appendNeedsComma` holds. -/
lemma insert_append_splice_eq
    (raw : List Char) (ship s : List (String × PyVal))
    (arrStart arrEnd : Nat) (newSide : String)
    (baseIndent itemIndent lb : List Char)
    (hraw : raw.isEmpty = false)
    (hregion : extract_ship_list_region raw = some (arrStart, arrEnd))
    (hbil : ship_list_indentation raw arrStart arrEnd = (baseIndent, itemIndent, lb))
    (hstyle : applyKeyStyle ship (probeKeyStyle raw arrStart arrEnd) = s)
    (hside : newSideOf s = some newSide)
    (hscan : (newSide == "") = true ∨ clusterScan raw arrStart arrEnd newSide = some none) :
    surgical_insert_ship_block raw ship true =
      some (raw.take (arrEnd - 1) ++
        ((if appendNeedsComma raw arrStart (arrEnd - 1) then [','] ++ lb else []) ++
          itemIndent ++ pyStrip (render_ship_block s itemIndent) ++ lb) ++
        raw.drop (arrEnd - 1)) := by
  have key : (if true && !(newSide == "") then clusterScan raw arrStart arrEnd newSide
      else some none) = some none := by
    rcases hscan with hempty | hclu
    · simp [hempty]
    · cases hval : (newSide == "") with
      | true => simp
      | false => simp [hclu]
  unfold surgical_insert_ship_block
  simp only [hraw, Bool.false_eq_true, if_false, hregion, hbil, hstyle, hside, key,
    List.append_nil]

/-- C3 (amended): when the clustering scan finds a last same-side record
ending at `be`, the rendered record is spliced immediately after `be`,
with a leading separator (a preceding sibling always exists on this
path) and a trailing separator emitted unconditionally — whether or not
siblings follow; otherwise (an empty new side, or a scan that finds no
same-side record) the record is spliced just before the array's closing
bracket with no trailing separator, and with a leading separator
exactly when the last non-whitespace character before the bracket is
not the opening bracket — which coincides with a preceding sibling
existing only for comment-free arrays. -/
theorem C3_amended_insert_splice_paths :
    (∀ (raw : List Char) (ship s : List (String × PyVal)) (arrStart arrEnd be : Nat)
        (newSide : String) (baseIndent itemIndent lb : List Char),
      raw.isEmpty = false →
      extract_ship_list_region raw = some (arrStart, arrEnd) →
      ship_list_indentation raw arrStart arrEnd = (baseIndent, itemIndent, lb) →
      applyKeyStyle ship (probeKeyStyle raw arrStart arrEnd) = s →
      newSideOf s = some newSide →
      (newSide == "") = false →
      clusterScan raw arrStart arrEnd newSide = some (some be) →
      surgical_insert_ship_block raw ship true =
        some (raw.take be ++
          (([','] ++ lb) ++ itemIndent ++ pyStrip (render_ship_block s itemIndent) ++
            [','] ++ lb) ++
          raw.drop be)) ∧
    (∀ (raw : List Char) (ship s : List (String × PyVal)) (arrStart arrEnd : Nat)
        (newSide : String) (baseIndent itemIndent lb : List Char),
      raw.isEmpty = false →
      extract_ship_list_region raw = some (arrStart, arrEnd) →
      ship_list_indentation raw arrStart arrEnd = (baseIndent, itemIndent, lb) →
      applyKeyStyle ship (probeKeyStyle raw arrStart arrEnd) = s →
      newSideOf s = some newSide →
      ((newSide == "") = true ∨ clusterScan raw arrStart arrEnd newSide = some none) →
      surgical_insert_ship_block raw ship true =
        some (raw.take (arrEnd - 1) ++
          ((if appendNeedsComma raw arrStart (arrEnd - 1) then [','] ++ lb else []) ++
            itemIndent ++ pyStrip (render_ship_block s itemIndent) ++ lb) ++
          raw.drop (arrEnd - 1))) := by
  constructor
  · intro raw ship s arrStart arrEnd be newSide baseIndent itemIndent lb
      hraw hregion hbil hstyle hside hnsne hscan
    exact insert_clustered_splice_eq raw ship s arrStart arrEnd be newSide
      baseIndent itemIndent lb hraw hregion hbil hstyle hside hnsne hscan
  · intro raw ship s arrStart arrEnd newSide baseIndent itemIndent lb
      hraw hregion hbil hstyle hside hscan
    exact insert_append_splice_eq raw ship s arrStart arrEnd newSide
      baseIndent itemIndent lb hraw hregion hbil hstyle hside hscan

/-- The C3 append-path document: the ship list array holds no record at
all, only a block comment before the closing bracket. -/
def dAppendDoc : List Char :=
  cl ("\x7b\"#ship-list\":\n  [ /*c*/ ]\x7d")

/-- The C3 append-path record. -/
def shipZ : List (String × PyVal) :=
  [(("Key"), PyVal.pstr ("z")), (("side"), PyVal.pstr ("c"))]

/-- Witness for the amended C3: the clustered conjunct at the one-record
document, and the append conjunct at the comment-only array — there the
array holds no record (`iter_top_level_flow_maps` yields nothing), yet
the separator test fires because the last non-whitespace character
before the closing bracket is the comment's final slash, not the
opening bracket. -/
theorem C3_amended_witness :
    (surgical_insert_ship_block d3doc ship3 true =
      some (d3doc.take 44 ++
        (([','] ++ cl ("\n")) ++ cl ("  ") ++
          pyStrip (render_ship_block ship3 (cl ("  "))) ++ [','] ++ cl ("\n")) ++
        d3doc.drop 44)) ∧
    (surgical_insert_ship_block dAppendDoc shipZ true =
      some (dAppendDoc.take 25 ++
        ((if appendNeedsComma dAppendDoc 17 25 then [','] ++ cl ("\n") else []) ++
          cl ("    ") ++ pyStrip (render_ship_block shipZ (cl ("    "))) ++ cl ("\n")) ++
        dAppendDoc.drop 25)) ∧
    appendNeedsComma dAppendDoc 17 25 = true ∧
    iter_top_level_flow_maps dAppendDoc 17 26 = [] := by
  refine ⟨?_, ?_, by decide, by decide⟩
  · exact C3_amended_insert_splice_paths.1 d3doc ship3 ship3 15 46 44 ("c")
      (cl ("\x7b\"#ship-list\": ")) (cl ("  ")) (cl ("\n"))
      (by decide) (by decide) (by decide) (by rfl) (by decide) (by decide) (by decide)
  · exact C3_amended_insert_splice_paths.2 dAppendDoc shipZ shipZ 17 26 ("c")
      (cl ("  ")) (cl ("    ")) (cl ("\n"))
      (by decide) (by decide) (by decide) (by rfl) (by decide) (Or.inr (by decide))

/-- C4: when a record span is located, the deletion inspects the first
non-whitespace character preceding the span (bounded below by the array
start): when it is a comma, the removal runs from that comma through the
span end; otherwise the removal runs from the span start through the
trailing whitespace and at most one following comma. -/
theorem C4_delete_resolves_separator (raw keyValue : List Char)
    (arrStart arrEnd start end_ : Nat)
    (hraw : raw.isEmpty = false)
    (hregion : extract_ship_list_region raw = some (arrStart, arrEnd))
    (hspan : (iter_object_spans_for_key raw keyValue).head? = some (start, end_)) :
    surgical_delete_ship_by_key raw keyValue =
      (if delPrecededByComma raw arrStart start then
        (true, raw.take (delCommaPos raw arrStart start) ++ raw.drop end_)
       else
        (true, raw.take start ++ raw.drop (delAfterPos raw end_))) := by
  unfold surgical_delete_ship_by_key
  simp only [hraw, Bool.false_eq_true, if_false, hregion, hspan]

/-- The C4 witness document: two records `a` and `b`. -/
def d4doc : List Char :=
  cl ("\x7b\"#ship-list\": [\n  \x7b\"Key\": \"a\"\x7d,\n  \x7b\"Key\": \"b\"\x7d\n]\x7d")

/-- Witness for C4: deleting the first record takes the
no-preceding-comma path (the first record's span is removed together
with its following comma, so the next record becomes the first token
after the bracket with no leading comma); deleting the last record takes
the preceding-comma path (no double or dangling separator remains). -/
theorem C4_witness :
    surgical_delete_ship_by_key d4doc (cl ("a")) =
      (true, cl ("\x7b\"#ship-list\": [\n  \n  \x7b\"Key\": \"b\"\x7d\n]\x7d")) ∧
    surgical_delete_ship_by_key d4doc (cl ("b")) =
      (true, cl ("\x7b\"#ship-list\": [\n  \x7b\"Key\": \"a\"\x7d\n]\x7d")) := by
  constructor
  · have h := C4_delete_resolves_separator d4doc (cl ("a")) 15 49 19 31
      (by decide) (by decide) (by decide)
    rw [h]
    decide
  · have h := C4_delete_resolves_separator d4doc (cl ("b")) 15 49 35 47
      (by decide) (by decide) (by decide)
    rw [h]
    decide

/-- C5: when no record matches the discriminant, the delete operation
never inserts — it returns failure with the document text unchanged —
while the update operation recovers by inserting the merged record and
then patching the re-located block. -/
theorem C5_missing_discriminant_insert_for_update_never_for_delete :
    (∀ raw k, iter_object_spans_for_key raw k = [] →
      surgical_delete_ship_by_key raw k = (false, raw)) ∧
    (∀ bannerRaw raw ship updates, raw.isEmpty = false →
      locate_span raw ship = none →
      surgical_save_current_ship bannerRaw raw ship updates =
        (match surgical_insert_ship_block raw (dUpdate ship updates) true with
         | none => none
         | some raw1 =>
           match relocate_span raw1 ship with
           | none => none
           | some sp1 => save_finish bannerRaw raw1 sp1 updates)) := by
  constructor
  · intro raw k hmt
    unfold surgical_delete_ship_by_key
    by_cases he : raw.isEmpty
    · simp [he]
    · simp only [he, Bool.false_eq_true, if_false]
      cases hr : extract_ship_list_region raw with
      | none => rfl
      | some pr =>
        obtain ⟨a, b⟩ := pr
        simp only [hmt, List.head?_nil]
  · intro bannerRaw raw ship updates hraw hlocate
    unfold surgical_save_current_ship
    simp only [hraw, Bool.false_eq_true, if_false, hlocate]

/-- Witness for C5: in `d3doc` no record has key `zz`; the delete
returns failure with the text unchanged, and the save falls back to the
insert-then-patch pipeline. -/
theorem C5_witness :
    surgical_delete_ship_by_key d3doc (cl ("zz")) = (false, d3doc) ∧
    surgical_save_current_ship (cl ("B")) d3doc
        [(("Key"), PyVal.pstr ("zz")), (("side"), PyVal.pstr ("c"))]
        [(("side"), PyVal.pstr ("x"))] =
      (match surgical_insert_ship_block d3doc
          (dUpdate [(("Key"), PyVal.pstr ("zz")), (("side"), PyVal.pstr ("c"))]
            [(("side"), PyVal.pstr ("x"))]) true with
       | none => none
       | some raw1 =>
         match relocate_span raw1
             [(("Key"), PyVal.pstr ("zz")), (("side"), PyVal.pstr ("c"))] with
         | none => none
         | some sp1 =>
           save_finish (cl ("B")) raw1 sp1 [(("side"), PyVal.pstr ("x"))]) := by
  constructor
  · exact C5_missing_discriminant_insert_for_update_never_for_delete.1 d3doc (cl ("zz"))
      (by decide)
  · exact C5_missing_discriminant_insert_for_update_never_for_delete.2 (cl ("B")) d3doc
      [(("Key"), PyVal.pstr ("zz")), (("side"), PyVal.pstr ("c"))]
      [(("side"), PyVal.pstr ("x"))] (by decide) (by decide)

end ShipData
